import Mathlib

/-!
# fast-feed: the extraction logic of `src/parser.cc`

A shallow embedding of the feed extractor.  The XML tree builder (rapidxml,
called as `doc.parse<0>`) is not part of the extractor: its output, a tree of
named nodes with attributes, is the input here.  The JavaScript objects the
extractor fills (`feed`, `item`, `link`) are records whose fields are the
property names the code sets; a property never set is `none`.
-/

namespace FastFeed

/-! ## The parsed tree -/

/-- An attribute of an element (rapidxml `xml_attribute`): a name and a value. -/
structure xml_attribute where
  name : String
  value : String
  deriving DecidableEq, Repr

/-- A node of the parsed tree (rapidxml `xml_node`).  With the flags of
`parse<0>` the tree holds element nodes, data nodes (character data between
tags) and CDATA nodes; comments, declarations, doctypes and processing
instructions are skipped by the tree builder. -/
inductive xml_node where
  | element (name : String) (attributes : List xml_attribute) (children : List xml_node)
  | data (value : String)
  | cdata (value : String)

/-- The document node (rapidxml `xml_document`): the list of top-level nodes. -/
structure xml_document where
  children : List xml_node

/-- Name of a node, `xml_node::name()`: data and CDATA nodes have the empty name. -/
def xml_node.name : xml_node → String
  | .element n _ _ => n
  | .data _ => ""
  | .cdata _ => ""

/-- Child nodes in document order (the `m_first_node` chain). -/
def xml_node.children : xml_node → List xml_node
  | .element _ _ cs => cs
  | .data _ => []
  | .cdata _ => []

/-- Attributes in document order (the `m_first_attribute` chain). -/
def xml_node.attributes : xml_node → List xml_attribute
  | .element _ as _ => as
  | .data _ => []
  | .cdata _ => []

/-- Text of a data node, `none` for the other kinds. -/
def xml_node.dataText : xml_node → Option String
  | .data v => some v
  | _ => none

/-- Text of a data or CDATA node, `none` for an element. -/
def xml_node.textOf : xml_node → Option String
  | .data v => some v
  | .cdata v => some v
  | .element _ _ _ => none

/-- Whether the node is an element. -/
def xml_node.isElement : xml_node → Bool
  | .element _ _ _ => true
  | _ => false

/-- Value of a node, `xml_node::value()`.  A data or CDATA node holds its text.
For an element the tree builder (without `parse_no_element_values`) stores the
text of the element's first data node, and the empty string when it has none. -/
def xml_node.value : xml_node → String
  | .element _ _ cs => (cs.findSome? xml_node.dataText).getD ""
  | .data v => v
  | .cdata v => v

/-- A non-null `xml_node*`: the node pointed at together with its following
siblings (the `m_next_sibling` chain).  A null pointer is `none`. -/
structure node_ptr where
  node : xml_node
  next : List xml_node

/-- Name test of `first_node` / `next_sibling`: no name (a null `name`
argument) accepts every node, a name accepts the nodes with exactly that name
(case sensitive). -/
def name_matches (name : Option String) (n : xml_node) : Bool :=
  match name with
  | none => true
  | some s => decide (n.name = s)

/-- Walk a sibling chain to the first node passing the name test. -/
def find_sibling (name : Option String) : List xml_node → Option node_ptr
  | [] => none
  | c :: rest => if name_matches name c then some ⟨c, rest⟩ else find_sibling name rest

/-- Call `xml_node::first_node(name)`: first child with the name, if any. -/
def xml_node.first_node (parent : xml_node) (name : Option String) : Option node_ptr :=
  find_sibling name parent.children

/-- Call `xml_document::first_node(name)`: first top-level node with the name. -/
def xml_document.first_node (doc : xml_document) (name : Option String) : Option node_ptr :=
  find_sibling name doc.children

/-- Call `xml_node::next_sibling(name)`: first following sibling with the name. -/
def node_ptr.next_sibling (p : node_ptr) (name : Option String) : Option node_ptr :=
  find_sibling name p.next

/-- Call `xml_node::first_attribute(name)`: first attribute with the name. -/
def xml_node.first_attribute (n : xml_node) (name : String) : Option xml_attribute :=
  n.attributes.find? (fun a => decide (a.name = name))

/-! ## Field reader -/

/-- Source `readTextNode` (parser.cc 20-41): the value of the first child node of
the first child named `name`; the empty string when that child has no child
node; `none` (the null pointer) when no child has the name. -/
def readTextNode (rootNode : xml_node) (name : String) : Option String :=
  match rootNode.first_node (some name) with
  | some node =>
    match node.node.first_node none with
    | some textNode => some textNode.node.value
    | none => some ""
  | none => none

/-! ## The records handed to the caller -/

/-- The object built for one Atom `link` element: the properties the code may set. -/
structure Link where
  rel : Option String := none
  href : Option String := none
  type : Option String := none
  hreflang : Option String := none
  title : Option String := none
  length : Option String := none
  text : Option String := none
  deriving DecidableEq, Repr

/-- The object built for one RSS `item` or Atom `entry`. -/
structure Item where
  id : Option String := none
  link : Option String := none
  links : Option (List Link) := none
  title : Option String := none
  date : Option String := none
  author : Option String := none
  description : Option String := none
  summary : Option String := none
  content : Option String := none
  deriving DecidableEq, Repr

/-- The `feed` object. -/
structure Feed where
  type : Option String := none
  title : Option String := none
  id : Option String := none
  link : Option String := none
  description : Option String := none
  author : Option String := none
  items : Option (List Item) := none
  deriving DecidableEq, Repr

/-- Size of what a cursor still has ahead of it; the loops over siblings
decrease it. -/
def cursorSize : Option node_ptr → Nat
  | none => 0
  | some p => p.next.length + 1

/-! ## Atom extractor -/

/-- Body of the inner `while (linkNode)` loop of `parseAtomFeed` (parser.cc
157-210): a fresh object, one property per attribute that is there, and `text`
from the first child node when there is one. -/
def readLink (linkNode : xml_node) : Link :=
  let link : Link := {}
  let link := match linkNode.first_attribute "rel" with
    | some relAttr => { link with rel := some relAttr.value }
    | none => link
  let link := match linkNode.first_attribute "href" with
    | some hrefAttr => { link with href := some hrefAttr.value }
    | none => link
  let link := match linkNode.first_attribute "type" with
    | some typeAttr => { link with type := some typeAttr.value }
    | none => link
  let link := match linkNode.first_attribute "hreflang" with
    | some hreflangAttr => { link with hreflang := some hreflangAttr.value }
    | none => link
  let link := match linkNode.first_attribute "title" with
    | some titleAttr => { link with title := some titleAttr.value }
    | none => link
  let link := match linkNode.first_attribute "length" with
    | some lengthAttr => { link with length := some lengthAttr.value }
    | none => link
  match linkNode.first_node none with
  | some textNode => { link with text := some textNode.node.value }
  | none => link

/-- The inner loop `while (linkNode) ... linkNode = linkNode->next_sibling("link")`
(parser.cc 155-217).  `links->Set(linkIndex, link)` writes at the running
count, which is the length of the array so far, so it appends. -/
def linksLoop (linkNode : Option node_ptr) (links : List Link) : List Link :=
  match linkNode with
  | none => links
  | some p => linksLoop (p.next_sibling (some "link")) (links ++ [readLink p.node])
termination_by cursorSize linkNode
decreasing_by
  have key : ∀ (l : List xml_node) (q : node_ptr),
      find_sibling (some "link") l = some q → q.next.length < l.length := by
    intro l
    induction l with
    | nil => intro q h; simp [find_sibling] at h
    | cons c rest ih =>
      intro q h
      unfold find_sibling at h
      split at h
      · cases h; simp
      · have := ih q h
        simp only [List.length_cons]
        omega
  cases hq : p.next_sibling (some "link") with
  | none => simp [cursorSize]
  | some q =>
    have := key p.next q hq
    simp only [cursorSize]
    omega

/-- Body of the outer `while (itemNode)` loop of `parseAtomFeed` (parser.cc
135-277): the object built for one `entry`. -/
def readEntry (itemNode : xml_node) (extractContent : Bool) : Item :=
  let item : Item := {}
  let item := match readTextNode itemNode "id" with
    | some id => { item with id := some id }
    | none => item
  let links := linksLoop (itemNode.first_node (some "link")) []
  let item := { item with links := some links }
  let item := match readTextNode itemNode "title" with
    | some title => { item with title := some title }
    | none => item
  let item := match readTextNode itemNode "published" with
    | some date => { item with date := some date }
    | none => item
  let item := match readTextNode itemNode "updated" with
    | some date => { item with date := some date }
    | none => item
  let item := match readTextNode itemNode "author" with
    | some author => { item with author := some author }
    | none => item
  if extractContent then
    let item := match readTextNode itemNode "summary" with
      | some summary => { item with summary := some summary }
      | none => item
    match readTextNode itemNode "content" with
    | some content => { item with content := some content }
    | none => item
  else item

/-- The outer loop `while (itemNode) ... itemNode = itemNode->next_sibling("entry")`
(parser.cc 133-284); `items->Set(i, item)` appends, as `i` is the running count. -/
def entriesLoop (extractContent : Bool) (itemNode : Option node_ptr) (items : List Item) :
    List Item :=
  match itemNode with
  | none => items
  | some p =>
    entriesLoop extractContent (p.next_sibling (some "entry"))
      (items ++ [readEntry p.node extractContent])
termination_by cursorSize itemNode
decreasing_by
  have key : ∀ (l : List xml_node) (q : node_ptr),
      find_sibling (some "entry") l = some q → q.next.length < l.length := by
    intro l
    induction l with
    | nil => intro q h; simp [find_sibling] at h
    | cons c rest ih =>
      intro q h
      unfold find_sibling at h
      split at h
      · cases h; simp
      · have := ih q h
        simp only [List.length_cons]
        omega
  cases hq : p.next_sibling (some "entry") with
  | none => simp [cursorSize]
  | some q =>
    have := key p.next q hq
    simp only [cursorSize]
    omega

/-- Source `parseAtomFeed` (parser.cc 80-287), as a function from the `feed`
object it is given to the object it leaves. -/
def parseAtomFeed (feedNode : xml_node) (feed : Feed) (extractContent : Bool) : Feed :=
  let feed := { feed with type := some "atom" }
  let feed := match readTextNode feedNode "title" with
    | some title => { feed with title := some title }
    | none => feed
  let feed := match readTextNode feedNode "id" with
    | some id => { feed with id := some id }
    | none => feed
  let feed := match feedNode.first_node (some "link") with
    | some linkNode =>
      match linkNode.node.first_attribute "href" with
      | some hrefAttr => { feed with link := some hrefAttr.value }
      | none => feed
    | none => feed
  let feed := match readTextNode feedNode "author" with
    | some author => { feed with author := some author }
    | none => feed
  let items := entriesLoop extractContent (feedNode.first_node (some "entry")) []
  { feed with items := some items }

/-! ## RSS extractor -/

/-- Body of the `while (itemNode)` loop of `parseRssFeed` (parser.cc 349-415):
the object built for one `item`. -/
def readItem (itemNode : xml_node) (extractContent : Bool) : Item :=
  let item : Item := {}
  let item := match readTextNode itemNode "guid" with
    | some guid => { item with id := some guid }
    | none => item
  let item := match readTextNode itemNode "link" with
    | some link => { item with link := some link }
    | none => item
  let item := match readTextNode itemNode "pubDate" with
    | some date => { item with date := some date }
    | none => item
  let item := match readTextNode itemNode "dc:date" with
    | some date => { item with date := some date }
    | none => item
  let item := match readTextNode itemNode "title" with
    | some title => { item with title := some title }
    | none => item
  let item := match readTextNode itemNode "author" with
    | some author => { item with author := some author }
    | none => item
  if extractContent then
    match readTextNode itemNode "description" with
    | some description => { item with description := some description }
    | none => item
  else item

/-- The loop `while (itemNode) ... itemNode = itemNode->next_sibling("item")`
(parser.cc 347-422); `items->Set(i, item)` appends, as `i` is the running count. -/
def itemsLoop (extractContent : Bool) (itemNode : Option node_ptr) (items : List Item) :
    List Item :=
  match itemNode with
  | none => items
  | some p =>
    itemsLoop extractContent (p.next_sibling (some "item"))
      (items ++ [readItem p.node extractContent])
termination_by cursorSize itemNode
decreasing_by
  have key : ∀ (l : List xml_node) (q : node_ptr),
      find_sibling (some "item") l = some q → q.next.length < l.length := by
    intro l
    induction l with
    | nil => intro q h; simp [find_sibling] at h
    | cons c rest ih =>
      intro q h
      unfold find_sibling at h
      split at h
      · cases h; simp
      · have := ih q h
        simp only [List.length_cons]
        omega
  cases hq : p.next_sibling (some "item") with
  | none => simp [cursorSize]
  | some q =>
    have := key p.next q hq
    simp only [cursorSize]
    omega

/-- Source `parseRssFeed` (parser.cc 291-425).  The function returns nothing; its
effects are the `feed` object it leaves (first component) and the TypeError it
may schedule with `NanThrowTypeError` (second component, `none` when it
schedules none). -/
def parseRssFeed (rssNode : xml_node) (feed : Feed) (extractContent : Bool) :
    Feed × Option String :=
  let feed := { feed with type := some "rss" }
  match rssNode.first_node (some "channel") with
  | none => (feed, some "Invalid RSS channel.")
  | some channelNode =>
    let feed := match readTextNode channelNode.node "title" with
      | some title => { feed with title := some title }
      | none => feed
    let feed := match readTextNode channelNode.node "description" with
      | some description => { feed with description := some description }
      | none => feed
    let feed := match readTextNode channelNode.node "link" with
      | some link => { feed with link := some link }
      | none => feed
    let feed := match readTextNode channelNode.node "author" with
      | some author => { feed with author := some author }
      | none => feed
    let items := itemsLoop extractContent (channelNode.node.first_node (some "item")) []
    ({ feed with items := some items }, none)

/-! ## Dispatcher -/

/-- What a call of the native method leaves behind: the TypeError scheduled with
`NanThrowTypeError`, if any, and the value passed to `NanReturnValue` (`none`
after `NanReturnUndefined()`). -/
structure CallOutcome where
  thrown : Option String
  returned : Option Feed
  deriving DecidableEq, Repr

/-- What the caller of the method gets: a scheduled TypeError is raised in the
caller and the return value is dropped; otherwise the caller gets the value. -/
def CallOutcome.result (o : CallOutcome) : Except String (Option Feed) :=
  match o.thrown with
  | some msg => .error msg
  | none => .ok o.returned

/-- Source `ParseFeed` (parser.cc 427-496) from the point where `doc.parse<0>`
has built the tree `doc`; `extractContent` is the flag as computed at 459-464. -/
def ParseFeed (doc : xml_document) (extractContent : Bool) : CallOutcome :=
  let feed : Feed := {}
  match doc.first_node (some "rss") with
  | some rssNode =>
    let r := parseRssFeed rssNode.node feed extractContent
    { thrown := r.2, returned := some r.1 }
  | none =>
    match doc.first_node (some "feed") with
    | some feedNode =>
      { thrown := none, returned := some (parseAtomFeed feedNode.node feed extractContent) }
    | none => { thrown := some "Invalid feed.", returned := none }

/-! ## Error locator -/

/-- The local variables of `findErrorLine` (parser.cc 47-50). -/
structure ScanState where
  i : Nat
  ln : Nat
  ch : Char
  col : Nat
  deriving DecidableEq, Repr

/-- The variables as initialised: `i = 0`, `ln = 1`, `ch = 0`, `col = 1`. -/
def scanInit : ScanState := ⟨0, 1, Char.ofNat 0, 1⟩

/-- The read `xml[i]`.  The buffer holds the text followed by its terminating
NUL; a read further out has no defined value in C++ and is given NUL here. -/
def readChar (xml : List Char) (i : Nat) : Char :=
  xml.getD i (Char.ofNat 0)

/-- One pass through the body of `while (true)` (parser.cc 52-73).  `where_` is
the pointer `where` as an offset from `xml` (negative when it points before
the buffer).  `none` is the `break`, taken when `xml + i == where`; otherwise
`xml[i]` is read, a newline bumps `ln` and sets `col = 0`, any other character
bumps `col`, and `i` is incremented.  (`i`, `ln`, `col` are C `int`s; they stay
below 2^31 for every buffer the host can hand over, so no wrap-around is
modelled.) -/
def scanStep (xml : List Char) (where_ : Int) (s : ScanState) : Option ScanState :=
  if (s.i : Int) = where_ then none
  else
    let ch := readChar xml s.i
    if ch = '\n' then some { i := s.i + 1, ln := s.ln + 1, ch := ch, col := 0 }
    else some { i := s.i + 1, ln := s.ln, ch := ch, col := s.col + 1 }

/-- A finished run of the loop: the variables at the `break`, and the indices
at which `xml[i]` was read, in the order of the reads (one per pass that did
not break). -/
structure ScanRun where
  final : ScanState
  reads : List Nat
  deriving DecidableEq, Repr

/-- The loop `while (true)` run for at most `fuel` evaluations of its exit
test; `none` when the `break` has not been reached by then. -/
def scanLoop (xml : List Char) (where_ : Int) : Nat → ScanState → Option ScanRun
  | 0, _ => none
  | fuel + 1, s =>
    match scanStep xml where_ s with
    | none => some ⟨s, []⟩
    | some next =>
      (scanLoop xml where_ fuel next).map (fun r => ⟨r.final, s.i :: r.reads⟩)

/-- Source `findErrorLine` (parser.cc 45-76): the pair `(ln, col)` at the
`break`, when the loop reaches it within `fuel` evaluations of the exit test. -/
def findErrorLine (xml : List Char) (where_ : Int) (fuel : Nat) : Option (Nat × Nat) :=
  (scanLoop xml where_ fuel scanInit).map (fun r => (r.final.ln, r.final.col))

/-! ## Auxiliary notions used in the statements -/

/-- Text an element holds directly: the text of its first data or CDATA child,
`none` when it has no such child. -/
def xml_node.ownText (n : xml_node) : Option String :=
  n.children.findSome? xml_node.textOf

/-- Children of a node carrying a given name, in document order. -/
def xml_node.childrenNamed (n : xml_node) (name : String) : List xml_node :=
  n.children.filter (fun c => decide (c.name = name))

/-- An item with the three content properties (`description`, `summary`,
`content`) removed and every other property kept. -/
def Item.withoutContent (item : Item) : Item :=
  { item with description := none, summary := none, content := none }

/-- A feed whose items have the content properties removed; the feed's own
properties, the number of items and their order are kept. -/
def Feed.withoutContent (feed : Feed) : Feed :=
  { feed with items := feed.items.map (List.map Item.withoutContent) }

/-- An outcome whose returned record, if any, has the content properties of its
items removed; the scheduled error is kept. -/
def CallOutcome.withoutContent (o : CallOutcome) : CallOutcome :=
  { o with returned := o.returned.map Feed.withoutContent }

/-- The effect of one non-breaking pass on the variables, given the character
read: the two branches of `if (ch == '\n')` followed by `i++`. -/
def advance (s : ScanState) (c : Char) : ScanState :=
  if c = '\n' then { i := s.i + 1, ln := s.ln + 1, ch := c, col := 0 }
  else { i := s.i + 1, ln := s.ln, ch := c, col := s.col + 1 }

/-- A sibling chain with every node named `name` removed except the first. -/
def dropLaterNamed (name : String) : List xml_node → List xml_node
  | [] => []
  | c :: rest =>
    if c.name = name then c :: rest.filter (fun d => !decide (d.name = name))
    else c :: dropLaterNamed name rest

/-- The same node with another list of children (a data or CDATA node has no
children and is left as it is). -/
def xml_node.withChildren (n : xml_node) (cs : List xml_node) : xml_node :=
  match n with
  | .element nm as _ => .element nm as cs
  | other => other

/-! ## Lookup lemmas -/

theorem find_sibling_none_iff (name : String) (l : List xml_node) :
    find_sibling (some name) l = none ↔ ∀ c ∈ l, c.name ≠ name := by
  induction l with
  | nil => simp [find_sibling]
  | cons c rest ih =>
    unfold find_sibling
    by_cases h : c.name = name
    · simp [name_matches, h]
    · simp [name_matches, h, ih]

theorem find_sibling_node_elements (name : String) (hne : name ≠ "") (l : List xml_node) :
    (find_sibling (some name) l).map node_ptr.node =
      (find_sibling (some name) (l.filter xml_node.isElement)).map node_ptr.node := by
  induction l with
  | nil => rfl
  | cons c rest ih =>
    cases c with
    | element n as cs =>
      simp only [List.filter_cons, xml_node.isElement, if_true]
      unfold find_sibling
      by_cases h : n = name
      · simp [name_matches, xml_node.name, h]
      · simpa [name_matches, xml_node.name, h] using ih
    | data v =>
      have hn : ¬ ("" = name) := fun e => hne e.symm
      simp only [List.filter_cons, xml_node.isElement]
      rw [find_sibling]
      simpa [name_matches, xml_node.name, hn] using ih
    | cdata v =>
      have hn : ¬ ("" = name) := fun e => hne e.symm
      simp only [List.filter_cons, xml_node.isElement]
      rw [find_sibling]
      simpa [name_matches, xml_node.name, hn] using ih

/-! ## The loops over siblings visit exactly the children with the name -/

theorem linksLoop_eq (l : List xml_node) (acc : List Link) :
    linksLoop (find_sibling (some "link") l) acc =
      acc ++ (l.filter (fun c => decide (c.name = "link"))).map readLink := by
  induction l generalizing acc with
  | nil => rw [find_sibling, linksLoop]; simp
  | cons c rest ih =>
    rw [find_sibling]
    by_cases h : c.name = "link"
    · simp only [name_matches, h, decide_True, if_true]
      rw [linksLoop]
      simp only [node_ptr.next_sibling]
      rw [ih]
      simp [List.filter_cons, h]
    · simp only [name_matches, h, decide_False]
      rw [if_neg (by simp), ih]
      simp [List.filter_cons, h]

theorem entriesLoop_eq (ec : Bool) (l : List xml_node) (acc : List Item) :
    entriesLoop ec (find_sibling (some "entry") l) acc =
      acc ++ (l.filter (fun c => decide (c.name = "entry"))).map (fun c => readEntry c ec) := by
  induction l generalizing acc with
  | nil => rw [find_sibling, entriesLoop]; simp
  | cons c rest ih =>
    rw [find_sibling]
    by_cases h : c.name = "entry"
    · simp only [name_matches, h, decide_True, if_true]
      rw [entriesLoop]
      simp only [node_ptr.next_sibling]
      rw [ih]
      simp [List.filter_cons, h]
    · simp only [name_matches, h, decide_False]
      rw [if_neg (by simp), ih]
      simp [List.filter_cons, h]

theorem itemsLoop_eq (ec : Bool) (l : List xml_node) (acc : List Item) :
    itemsLoop ec (find_sibling (some "item") l) acc =
      acc ++ (l.filter (fun c => decide (c.name = "item"))).map (fun c => readItem c ec) := by
  induction l generalizing acc with
  | nil => rw [find_sibling, itemsLoop]; simp
  | cons c rest ih =>
    rw [find_sibling]
    by_cases h : c.name = "item"
    · simp only [name_matches, h, decide_True, if_true]
      rw [itemsLoop]
      simp only [node_ptr.next_sibling]
      rw [ih]
      simp [List.filter_cons, h]
    · simp only [name_matches, h, decide_False]
      rw [if_neg (by simp), ih]
      simp [List.filter_cons, h]

/-! ## Dispatcher -/

theorem first_node_single_root (doc : xml_document) (root : xml_node) (name : String)
    (hne : name ≠ "") (hroot : doc.children.filter xml_node.isElement = [root]) :
    (doc.first_node (some name)).map node_ptr.node =
      if root.name = name then some root else none := by
  unfold xml_document.first_node
  rw [find_sibling_node_elements name hne, hroot]
  by_cases h : root.name = name
  · simp [find_sibling, name_matches, h]
  · simp [find_sibling, name_matches, h]

/-- C1: for a document with exactly one top-level element `root` (a well-formed
document), `ParseFeed` dispatches on the name of `root`: named `rss`, the
outcome is that of the RSS extractor run on `root`; otherwise, named `feed`,
it is the record of the Atom extractor run on `root`; with any other name the
call schedules the TypeError "Invalid feed." and returns no record, whatever
`root` contains. -/
theorem C1_dispatch_on_root_name (doc : xml_document) (root : xml_node)
    (extractContent : Bool)
    (hroot : doc.children.filter xml_node.isElement = [root]) :
    (root.name = "rss" →
      ParseFeed doc extractContent =
        ⟨(parseRssFeed root {} extractContent).2,
          some (parseRssFeed root {} extractContent).1⟩) ∧
    (root.name ≠ "rss" → root.name = "feed" →
      ParseFeed doc extractContent =
        ⟨none, some (parseAtomFeed root {} extractContent)⟩) ∧
    (root.name ≠ "rss" → root.name ≠ "feed" →
      ParseFeed doc extractContent = ⟨some "Invalid feed.", none⟩ ∧
      (ParseFeed doc extractContent).result = .error "Invalid feed.") := by
  have hrss := first_node_single_root doc root "rss" (by decide) hroot
  have hfeed := first_node_single_root doc root "feed" (by decide) hroot
  refine ⟨?_, ?_, ?_⟩
  · intro h
    rw [if_pos h] at hrss
    unfold ParseFeed
    cases hr : doc.first_node (some "rss") with
    | none => rw [hr] at hrss; simp at hrss
    | some p =>
      rw [hr] at hrss
      simp only [Option.map_some', Option.some.injEq] at hrss
      simp [hrss]
  · intro h1 h2
    rw [if_neg h1] at hrss
    rw [if_pos h2] at hfeed
    unfold ParseFeed
    cases hr : doc.first_node (some "rss") with
    | some p => rw [hr] at hrss; simp at hrss
    | none =>
      cases hf : doc.first_node (some "feed") with
      | none => rw [hf] at hfeed; simp at hfeed
      | some q =>
        rw [hf] at hfeed
        simp only [Option.map_some', Option.some.injEq] at hfeed
        simp [hfeed]
  · intro h1 h2
    rw [if_neg h1] at hrss
    rw [if_neg h2] at hfeed
    have hout : ParseFeed doc extractContent = ⟨some "Invalid feed.", none⟩ := by
      unfold ParseFeed
      cases hr : doc.first_node (some "rss") with
      | some p => rw [hr] at hrss; simp at hrss
      | none =>
        cases hf : doc.first_node (some "feed") with
        | some q => rw [hf] at hfeed; simp at hfeed
        | none => rfl
    exact ⟨hout, by rw [hout]; rfl⟩

/-- Witness of C1 at the document `<foo><rss><channel/></rss></foo>`: the one
top-level element is `foo`, and the call fails with "Invalid feed." although an
`rss` element sits inside it. -/
theorem C1_dispatch_on_root_name_witness :
    (xml_document.mk [.element "foo" [] [.element "rss" [] [.element "channel" [] []]]]).children.filter
        xml_node.isElement = [.element "foo" [] [.element "rss" [] [.element "channel" [] []]]] ∧
    (ParseFeed ⟨[.element "foo" [] [.element "rss" [] [.element "channel" [] []]]]⟩ true).result =
      .error "Invalid feed." :=
  ⟨rfl, ((C1_dispatch_on_root_name
      ⟨[.element "foo" [] [.element "rss" [] [.element "channel" [] []]]]⟩
      (.element "foo" [] [.element "rss" [] [.element "channel" [] []]]) true rfl).2.2
      (by decide) (by decide)).2⟩

/-! ## An `rss` node without a channel -/

/-- C2 (as amended): when the top-level `rss` node has no child named `channel`,
the call schedules the TypeError "Invalid RSS channel." and the caller gets
that error and no record; the `feed` object has by then received its `type`
property, so what the extractor leaves, and what `ParseFeed` passes to
`NanReturnValue` under the scheduled error, is the record carrying `type = rss`
and nothing else. -/
theorem C2_no_channel (doc : xml_document) (rssNode : node_ptr) (extractContent : Bool)
    (hrss : doc.first_node (some "rss") = some rssNode)
    (hchannel : ∀ c ∈ rssNode.node.children, c.name ≠ "channel") :
    (ParseFeed doc extractContent).thrown = some "Invalid RSS channel." ∧
    (ParseFeed doc extractContent).result = .error "Invalid RSS channel." ∧
    parseRssFeed rssNode.node {} extractContent =
      ({ type := some "rss" }, some "Invalid RSS channel.") ∧
    (ParseFeed doc extractContent).returned = some { type := some "rss" } := by
  have hnone : rssNode.node.first_node (some "channel") = none :=
    (find_sibling_none_iff "channel" rssNode.node.children).mpr hchannel
  have hp : parseRssFeed rssNode.node {} extractContent =
      ({ type := some "rss" }, some "Invalid RSS channel.") := by
    unfold parseRssFeed
    rw [hnone]
  have hout : ParseFeed doc extractContent =
      ⟨some "Invalid RSS channel.", some { type := some "rss" }⟩ := by
    unfold ParseFeed
    rw [hrss]
    simp only [hp]
  refine ⟨?_, ?_, hp, ?_⟩
  · rw [hout]
  · rw [hout]; rfl
  · rw [hout]

/-- Witness of C2 (as amended) at the document `<rss><title>t</title></rss>`. -/
theorem C2_no_channel_witness :
    (xml_document.mk [.element "rss" [] [.element "title" [] [.data "t"]]]).first_node (some "rss") =
      some ⟨.element "rss" [] [.element "title" [] [.data "t"]], []⟩ ∧
    (ParseFeed ⟨[.element "rss" [] [.element "title" [] [.data "t"]]]⟩ false).returned =
      some { type := some "rss" } :=
  ⟨rfl, (C2_no_channel ⟨[.element "rss" [] [.element "title" [] [.data "t"]]]⟩
      ⟨.element "rss" [] [.element "title" [] [.data "t"]], []⟩ false rfl
      (by intro c hc; simp [xml_node.children] at hc; subst hc; decide)).2.2.2⟩

/-- C2 as stated fails at the document `<rss></rss>`: the TypeError
"Invalid RSS channel." is scheduled, yet the extraction leaves a record behind,
the one carrying only `type = rss`, which is also the value handed to
`NanReturnValue`. -/
theorem C2_leaves_type_only_record :
    (ParseFeed ⟨[.element "rss" [] []]⟩ true).thrown = some "Invalid RSS channel." ∧
    (parseRssFeed (.element "rss" [] []) {} true).1 = { type := some "rss" } ∧
    (parseRssFeed (.element "rss" [] []) {} true).1 ≠ {} ∧
    (ParseFeed ⟨[.element "rss" [] []]⟩ true).returned = some { type := some "rss" } ∧
    (ParseFeed ⟨[.element "rss" [] []]⟩ true).returned ≠ none := by
  refine ⟨by decide, by decide, by decide, by decide, by decide⟩

/-! ## Field reader -/

theorem readTextNode_eq_none_iff (parent : xml_node) (name : String) :
    readTextNode parent name = none ↔ ∀ c ∈ parent.children, c.name ≠ name := by
  rw [← find_sibling_none_iff]
  unfold readTextNode xml_node.first_node
  cases h : find_sibling (some name) parent.children with
  | none => simp
  | some node =>
    cases h2 : find_sibling none node.node.children with
    | none => simp [h2]
    | some t => simp [h2]

theorem readTextNode_of_first_node (parent : xml_node) (name : String) (child : node_ptr)
    (h : parent.first_node (some name) = some child) :
    readTextNode parent name =
      match child.node.children with
      | [] => some ""
      | first :: _ => some first.value := by
  unfold readTextNode
  rw [h]
  cases hc : child.node.children with
  | nil => simp [xml_node.first_node, hc, find_sibling]
  | cons first rest => simp [xml_node.first_node, hc, find_sibling, name_matches]

/-- C3: `readTextNode` returns the null pointer (`none`) exactly when the
parent has no child with the name; when the first child with the name has no
child node (an empty or self-closing element) it returns the empty string,
which is not `none`: absent and present-but-empty are told apart. -/
theorem C3_absent_iff_no_child (parent : xml_node) (name : String) :
    (readTextNode parent name = none ↔ ∀ c ∈ parent.children, c.name ≠ name) ∧
    (∀ child : node_ptr, parent.first_node (some name) = some child →
      child.node.children = [] →
        readTextNode parent name = some "" ∧ readTextNode parent name ≠ none) := by
  constructor
  · exact readTextNode_eq_none_iff parent name
  · intro child h hc
    rw [readTextNode_of_first_node parent name child h, hc]
    simp

/-- Witness of C3 at `<item><title></title></item>` read for `title` (present,
empty) and for `guid` (absent). -/
theorem C3_absent_iff_no_child_witness :
    readTextNode (.element "item" [] [.element "title" [] []]) "title" = some "" ∧
    readTextNode (.element "item" [] [.element "title" [] []]) "guid" = none :=
  ⟨((C3_absent_iff_no_child (.element "item" [] [.element "title" [] []]) "title").2
      ⟨.element "title" [] [], []⟩ rfl rfl).1,
   (C3_absent_iff_no_child (.element "item" [] [.element "title" [] []]) "guid").1.mpr
      (by intro c hc; simp [xml_node.children] at hc; subst hc; decide)⟩

/-- C4 (as amended): when the first child with the name has a child node, the
result is the value of that first child node.  If it is a text node (data or
CDATA), the result is exactly its text, which is the text the element holds
directly, also when nested elements follow; if it is a nested element, the
result is the value of that nested element. -/
theorem C4_first_child_value (parent : xml_node) (name : String) (child : node_ptr)
    (first : xml_node) (rest : List xml_node)
    (h : parent.first_node (some name) = some child)
    (hc : child.node.children = first :: rest) :
    readTextNode parent name = some first.value ∧
    (∀ t : String, first.textOf = some t →
      readTextNode parent name = some t ∧ child.node.ownText = some t) := by
  have hv : readTextNode parent name = some first.value := by
    rw [readTextNode_of_first_node parent name child h, hc]
  refine ⟨hv, ?_⟩
  intro t ht
  cases first with
  | element n as cs => simp [xml_node.textOf] at ht
  | data v =>
    simp only [xml_node.textOf, Option.some.injEq] at ht
    subst ht
    exact ⟨by rw [hv]; rfl, by simp [xml_node.ownText, hc, xml_node.textOf]⟩
  | cdata v =>
    simp only [xml_node.textOf, Option.some.injEq] at ht
    subst ht
    exact ⟨by rw [hv]; rfl, by simp [xml_node.ownText, hc, xml_node.textOf]⟩

/-- Witness of C4 (as amended) at `<item><title>head<b>x</b></title></item>`:
text first, a nested element after it, and the result is "head". -/
theorem C4_first_child_value_witness :
    (xml_node.element "item" []
        [.element "title" [] [.data "head", .element "b" [] [.data "x"]]]).first_node
        (some "title") =
      some ⟨.element "title" [] [.data "head", .element "b" [] [.data "x"]], []⟩ ∧
    readTextNode (.element "item" []
        [.element "title" [] [.data "head", .element "b" [] [.data "x"]]]) "title" =
      some "head" :=
  ⟨rfl, ((C4_first_child_value
      (.element "item" [] [.element "title" [] [.data "head", .element "b" [] [.data "x"]]])
      "title" ⟨.element "title" [] [.data "head", .element "b" [] [.data "x"]], []⟩
      (.data "head") [.element "b" [] [.data "x"]] rfl rfl).2 "head" rfl).1⟩

/-- C4 as stated fails at `<item><title><b>x</b>tail</title></item>`: the
`title` element holds the text "tail" of its own (its only text, and its
`value()`), but `readTextNode` returns "x", the value of the nested `b`. -/
theorem C4_nested_element_first :
    (xml_node.element "item" []
        [.element "title" [] [.element "b" [] [.data "x"], .data "tail"]]).first_node
        (some "title") =
      some ⟨.element "title" [] [.element "b" [] [.data "x"], .data "tail"], []⟩ ∧
    (xml_node.element "title" [] [.element "b" [] [.data "x"], .data "tail"]).ownText =
      some "tail" ∧
    (xml_node.element "title" [] [.element "b" [] [.data "x"], .data "tail"]).children.filterMap
        xml_node.textOf = ["tail"] ∧
    (xml_node.element "title" [] [.element "b" [] [.data "x"], .data "tail"]).value = "tail" ∧
    readTextNode (.element "item" []
        [.element "title" [] [.element "b" [] [.data "x"], .data "tail"]]) "title" = some "x" ∧
    readTextNode (.element "item" []
        [.element "title" [] [.element "b" [] [.data "x"], .data "tail"]]) "title" ≠
      some "tail" := by
  refine ⟨rfl, by decide, by decide, by decide, by decide, by decide⟩

/-! ## Date precedence -/

theorem readItem_date (itemNode : xml_node) (ec : Bool) :
    (readItem itemNode ec).date =
      match readTextNode itemNode "dc:date" with
      | some d => some d
      | none => readTextNode itemNode "pubDate" := by
  unfold readItem
  generalize readTextNode itemNode "guid" = a
  generalize readTextNode itemNode "link" = b
  generalize readTextNode itemNode "pubDate" = c
  generalize readTextNode itemNode "dc:date" = d
  generalize readTextNode itemNode "title" = e
  generalize readTextNode itemNode "author" = f
  generalize readTextNode itemNode "description" = g
  cases a <;> cases b <;> cases c <;> cases d <;> cases e <;> cases f <;> cases g <;>
    cases ec <;> rfl

theorem readEntry_date (itemNode : xml_node) (ec : Bool) :
    (readEntry itemNode ec).date =
      match readTextNode itemNode "updated" with
      | some d => some d
      | none => readTextNode itemNode "published" := by
  unfold readEntry
  generalize readTextNode itemNode "id" = a
  generalize linksLoop (itemNode.first_node (some "link")) [] = b
  generalize readTextNode itemNode "published" = c
  generalize readTextNode itemNode "updated" = d
  generalize readTextNode itemNode "title" = e
  generalize readTextNode itemNode "author" = f
  generalize readTextNode itemNode "summary" = g
  generalize readTextNode itemNode "content" = h
  cases a <;> cases c <;> cases d <;> cases e <;> cases f <;> cases g <;> cases h <;>
    cases ec <;> rfl

/-- C5: the `date` of the object built for an RSS `item` is what `readTextNode`
gives for `dc:date` when the item has a child named `dc:date` (the empty string
when that child is empty), otherwise what it gives for `pubDate` (nothing when
there is no `pubDate` either); with both present it is the `dc:date` value. -/
theorem C5_rss_date_precedence (itemNode : xml_node) (extractContent : Bool) :
    ((∃ c ∈ itemNode.children, c.name = "dc:date") →
      (readItem itemNode extractContent).date = readTextNode itemNode "dc:date" ∧
      (readItem itemNode extractContent).date ≠ none) ∧
    (∀ child : node_ptr, itemNode.first_node (some "dc:date") = some child →
      child.node.children = [] → (readItem itemNode extractContent).date = some "") ∧
    ((∀ c ∈ itemNode.children, c.name ≠ "dc:date") →
      (readItem itemNode extractContent).date = readTextNode itemNode "pubDate") ∧
    ((∀ c ∈ itemNode.children, c.name ≠ "dc:date") →
      (∀ c ∈ itemNode.children, c.name ≠ "pubDate") →
      (readItem itemNode extractContent).date = none) ∧
    (∀ d p : String, readTextNode itemNode "dc:date" = some d →
      readTextNode itemNode "pubDate" = some p →
      (readItem itemNode extractContent).date = some d) := by
  have hd := readItem_date itemNode extractContent
  refine ⟨?_, ?_, ?_, ?_, ?_⟩
  · intro hex
    cases hr : readTextNode itemNode "dc:date" with
    | none =>
      obtain ⟨c, hc, hn⟩ := hex
      exact absurd hn ((readTextNode_eq_none_iff itemNode "dc:date").mp hr c hc)
    | some d => rw [hd, hr]; simp
  · intro child h hc
    rw [hd, readTextNode_of_first_node itemNode "dc:date" child h, hc]
  · intro hno
    rw [hd, (readTextNode_eq_none_iff itemNode "dc:date").mpr hno]
  · intro hno hnp
    rw [hd, (readTextNode_eq_none_iff itemNode "dc:date").mpr hno,
      (readTextNode_eq_none_iff itemNode "pubDate").mpr hnp]
  · intro d p h1 _
    rw [hd, h1]

/-- Witness of C5 at an item with `<pubDate>Mon</pubDate>` followed by an empty
`<dc:date/>`: the date is the empty string read from `dc:date`. -/
theorem C5_rss_date_precedence_witness :
    readTextNode (.element "item" []
      [.element "pubDate" [] [.data "Mon"], .element "dc:date" [] []]) "pubDate" = some "Mon" ∧
    (readItem (.element "item" []
      [.element "pubDate" [] [.data "Mon"], .element "dc:date" [] []]) true).date = some "" :=
  ⟨by decide,
   (C5_rss_date_precedence (.element "item" []
      [.element "pubDate" [] [.data "Mon"], .element "dc:date" [] []]) true).2.1
      ⟨.element "dc:date" [] [], []⟩ rfl rfl⟩

/-- C6: the `date` of the object built for an Atom `entry` is what
`readTextNode` gives for `updated` when the entry has a child named `updated`
(the empty string when that child is empty), otherwise what it gives for
`published` (nothing when there is no `published` either); with both present
it is the `updated` value. -/
theorem C6_atom_date_precedence (itemNode : xml_node) (extractContent : Bool) :
    ((∃ c ∈ itemNode.children, c.name = "updated") →
      (readEntry itemNode extractContent).date = readTextNode itemNode "updated" ∧
      (readEntry itemNode extractContent).date ≠ none) ∧
    (∀ child : node_ptr, itemNode.first_node (some "updated") = some child →
      child.node.children = [] → (readEntry itemNode extractContent).date = some "") ∧
    ((∀ c ∈ itemNode.children, c.name ≠ "updated") →
      (readEntry itemNode extractContent).date = readTextNode itemNode "published") ∧
    ((∀ c ∈ itemNode.children, c.name ≠ "updated") →
      (∀ c ∈ itemNode.children, c.name ≠ "published") →
      (readEntry itemNode extractContent).date = none) ∧
    (∀ u p : String, readTextNode itemNode "updated" = some u →
      readTextNode itemNode "published" = some p →
      (readEntry itemNode extractContent).date = some u) := by
  have hd := readEntry_date itemNode extractContent
  refine ⟨?_, ?_, ?_, ?_, ?_⟩
  · intro hex
    cases hr : readTextNode itemNode "updated" with
    | none =>
      obtain ⟨c, hc, hn⟩ := hex
      exact absurd hn ((readTextNode_eq_none_iff itemNode "updated").mp hr c hc)
    | some d => rw [hd, hr]; simp
  · intro child h hc
    rw [hd, readTextNode_of_first_node itemNode "updated" child h, hc]
  · intro hno
    rw [hd, (readTextNode_eq_none_iff itemNode "updated").mpr hno]
  · intro hno hnp
    rw [hd, (readTextNode_eq_none_iff itemNode "updated").mpr hno,
      (readTextNode_eq_none_iff itemNode "published").mpr hnp]
  · intro u p h1 _
    rw [hd, h1]

/-- Witness of C6 at an entry with `<updated>U</updated>` before
`<published>P</published>`: the date is "U". -/
theorem C6_atom_date_precedence_witness :
    readTextNode (.element "entry" []
      [.element "updated" [] [.data "U"], .element "published" [] [.data "P"]]) "published" =
      some "P" ∧
    (readEntry (.element "entry" []
      [.element "updated" [] [.data "U"], .element "published" [] [.data "P"]]) false).date =
      some "U" :=
  ⟨by decide,
   (C6_atom_date_precedence (.element "entry" []
      [.element "updated" [] [.data "U"], .element "published" [] [.data "P"]]) false).2.2.2.2
      "U" "P" (by decide) (by decide)⟩

/-! ## Atom links -/

theorem readEntry_links (itemNode : xml_node) (ec : Bool) :
    (readEntry itemNode ec).links =
      some ((itemNode.childrenNamed "link").map readLink) := by
  have hl : linksLoop (itemNode.first_node (some "link")) [] =
      (itemNode.childrenNamed "link").map readLink := by
    unfold xml_node.first_node xml_node.childrenNamed
    rw [linksLoop_eq]
    simp
  rw [← hl]
  unfold readEntry
  generalize readTextNode itemNode "id" = a
  generalize linksLoop (itemNode.first_node (some "link")) [] = b
  generalize readTextNode itemNode "published" = c
  generalize readTextNode itemNode "updated" = d
  generalize readTextNode itemNode "title" = e
  generalize readTextNode itemNode "author" = f
  generalize readTextNode itemNode "summary" = g
  generalize readTextNode itemNode "content" = h
  cases a <;> cases c <;> cases d <;> cases e <;> cases f <;> cases g <;> cases h <;>
    cases ec <;> rfl

theorem readLink_attributes (linkNode : xml_node) :
    (readLink linkNode).rel = (linkNode.first_attribute "rel").map xml_attribute.value ∧
    (readLink linkNode).href = (linkNode.first_attribute "href").map xml_attribute.value ∧
    (readLink linkNode).type = (linkNode.first_attribute "type").map xml_attribute.value ∧
    (readLink linkNode).hreflang =
      (linkNode.first_attribute "hreflang").map xml_attribute.value ∧
    (readLink linkNode).title = (linkNode.first_attribute "title").map xml_attribute.value ∧
    (readLink linkNode).length =
      (linkNode.first_attribute "length").map xml_attribute.value := by
  unfold readLink
  generalize linkNode.first_attribute "rel" = a
  generalize linkNode.first_attribute "href" = b
  generalize linkNode.first_attribute "type" = c
  generalize linkNode.first_attribute "hreflang" = d
  generalize linkNode.first_attribute "title" = e
  generalize linkNode.first_attribute "length" = f
  generalize linkNode.first_node none = g
  cases a <;> cases b <;> cases c <;> cases d <;> cases e <;> cases f <;> cases g <;>
    simp

/-- C7: the object built for an Atom `entry` always has a `links` array; it has
one element per child named `link`, the k-th built from the k-th such child in
document order (so it is empty when there is no such child), and in each
element the properties `rel`, `href`, `type`, `hreflang`, `title`, `length` are
the values of the attributes of those names, each left out when the link
element has no attribute of that name. -/
theorem C7_entry_links (itemNode : xml_node) (extractContent : Bool) :
    ∃ links : List Link,
      (readEntry itemNode extractContent).links = some links ∧
      links.length = (itemNode.childrenNamed "link").length ∧
      (∀ k : Nat, links[k]? = ((itemNode.childrenNamed "link")[k]?).map readLink) ∧
      ((∀ c ∈ itemNode.children, c.name ≠ "link") → links = []) ∧
      (∀ linkNode : xml_node,
        (readLink linkNode).rel =
          (linkNode.attributes.find? (fun a => decide (a.name = "rel"))).map
            xml_attribute.value ∧
        (readLink linkNode).href =
          (linkNode.attributes.find? (fun a => decide (a.name = "href"))).map
            xml_attribute.value ∧
        (readLink linkNode).type =
          (linkNode.attributes.find? (fun a => decide (a.name = "type"))).map
            xml_attribute.value ∧
        (readLink linkNode).hreflang =
          (linkNode.attributes.find? (fun a => decide (a.name = "hreflang"))).map
            xml_attribute.value ∧
        (readLink linkNode).title =
          (linkNode.attributes.find? (fun a => decide (a.name = "title"))).map
            xml_attribute.value ∧
        (readLink linkNode).length =
          (linkNode.attributes.find? (fun a => decide (a.name = "length"))).map
            xml_attribute.value) := by
  refine ⟨(itemNode.childrenNamed "link").map readLink,
    readEntry_links itemNode extractContent, by simp, ?_, ?_, ?_⟩
  · intro k
    simp
  · intro h
    have : itemNode.childrenNamed "link" = [] := by
      unfold xml_node.childrenNamed
      rw [List.filter_eq_nil_iff]
      intro c hc
      simpa using h c hc
    rw [this]
    rfl
  · intro linkNode
    exact readLink_attributes linkNode

/-- Witness of C7 at an entry with a title between two links, the first with
`rel` and `href`, the second with `href` only. -/
theorem C7_entry_links_witness :
    (readEntry (.element "entry" []
      [.element "link" [⟨"rel", "alternate"⟩, ⟨"href", "http://a"⟩] [],
       .element "title" [] [.data "t"],
       .element "link" [⟨"href", "http://b"⟩] []]) true).links =
      some [{ rel := some "alternate", href := some "http://a" }, { href := some "http://b" }] := by
  obtain ⟨links, h1, _, h3, _, _⟩ := C7_entry_links (.element "entry" []
      [.element "link" [⟨"rel", "alternate"⟩, ⟨"href", "http://a"⟩] [],
       .element "title" [] [.data "t"],
       .element "link" [⟨"href", "http://b"⟩] []]) true
  rw [h1]
  congr 1
  apply List.ext_getElem?
  intro k
  rw [h3 k]
  match k with
  | 0 => decide
  | 1 => decide
  | (_ + 2) => rfl

/-! ## Items in document order -/

theorem parseRssFeed_channel (rssNode : xml_node) (channelNode : node_ptr) (ec : Bool)
    (h : rssNode.first_node (some "channel") = some channelNode) :
    (parseRssFeed rssNode {} ec).2 = none ∧
    (parseRssFeed rssNode {} ec).1.type = some "rss" ∧
    (parseRssFeed rssNode {} ec).1.title = readTextNode channelNode.node "title" ∧
    (parseRssFeed rssNode {} ec).1.id = none ∧
    (parseRssFeed rssNode {} ec).1.link = readTextNode channelNode.node "link" ∧
    (parseRssFeed rssNode {} ec).1.description =
      readTextNode channelNode.node "description" ∧
    (parseRssFeed rssNode {} ec).1.author = readTextNode channelNode.node "author" ∧
    (parseRssFeed rssNode {} ec).1.items =
      some ((channelNode.node.childrenNamed "item").map (fun c => readItem c ec)) := by
  have hl : itemsLoop ec (channelNode.node.first_node (some "item")) [] =
      (channelNode.node.childrenNamed "item").map (fun c => readItem c ec) := by
    unfold xml_node.first_node xml_node.childrenNamed
    rw [itemsLoop_eq]
    simp
  rw [← hl]
  unfold parseRssFeed
  simp only [h]
  generalize readTextNode channelNode.node "title" = a
  generalize readTextNode channelNode.node "description" = b
  generalize readTextNode channelNode.node "link" = c
  generalize readTextNode channelNode.node "author" = d
  cases a <;> cases b <;> cases c <;> cases d <;> simp

theorem parseAtomFeed_fields (feedNode : xml_node) (ec : Bool) :
    (parseAtomFeed feedNode {} ec).type = some "atom" ∧
    (parseAtomFeed feedNode {} ec).title = readTextNode feedNode "title" ∧
    (parseAtomFeed feedNode {} ec).id = readTextNode feedNode "id" ∧
    (parseAtomFeed feedNode {} ec).link =
      (match feedNode.first_node (some "link") with
       | none => none
       | some linkNode => (linkNode.node.first_attribute "href").map xml_attribute.value) ∧
    (parseAtomFeed feedNode {} ec).description = none ∧
    (parseAtomFeed feedNode {} ec).author = readTextNode feedNode "author" ∧
    (parseAtomFeed feedNode {} ec).items =
      some ((feedNode.childrenNamed "entry").map (fun c => readEntry c ec)) := by
  have hl : entriesLoop ec (feedNode.first_node (some "entry")) [] =
      (feedNode.childrenNamed "entry").map (fun c => readEntry c ec) := by
    unfold xml_node.first_node xml_node.childrenNamed
    rw [entriesLoop_eq]
    simp
  rw [← hl]
  unfold parseAtomFeed
  generalize readTextNode feedNode "title" = a
  generalize readTextNode feedNode "id" = b
  generalize readTextNode feedNode "author" = d
  cases hk : feedNode.first_node (some "link") with
  | none => cases a <;> cases b <;> cases d <;> simp
  | some linkNode =>
    simp only []
    generalize linkNode.node.first_attribute "href" = k
    cases k <;> cases a <;> cases b <;> cases d <;> simp

/-- C9: when the call succeeds, the `items` of the record are the objects built
from the children named `item` of the channel (RSS), or from the children
named `entry` of the feed node (Atom), one per such child and in document
order; an `rss` node with a channel without `item` children gives `type = rss`
and `items = []`. -/
theorem C9_items_in_document_order (doc : xml_document) (extractContent : Bool) :
    (∀ rssNode channelNode : node_ptr,
      doc.first_node (some "rss") = some rssNode →
      rssNode.node.first_node (some "channel") = some channelNode →
      ∃ feed : Feed, ∃ items : List Item,
        ParseFeed doc extractContent = ⟨none, some feed⟩ ∧
        feed.type = some "rss" ∧ feed.items = some items ∧
        items.length = (channelNode.node.childrenNamed "item").length ∧
        (∀ k : Nat, items[k]? =
          ((channelNode.node.childrenNamed "item")[k]?).map
            (fun c => readItem c extractContent)) ∧
        ((∀ c ∈ channelNode.node.children, c.name ≠ "item") → items = [])) ∧
    (∀ feedNode : node_ptr,
      doc.first_node (some "rss") = none →
      doc.first_node (some "feed") = some feedNode →
      ∃ feed : Feed, ∃ items : List Item,
        ParseFeed doc extractContent = ⟨none, some feed⟩ ∧
        feed.type = some "atom" ∧ feed.items = some items ∧
        items.length = (feedNode.node.childrenNamed "entry").length ∧
        (∀ k : Nat, items[k]? =
          ((feedNode.node.childrenNamed "entry")[k]?).map
            (fun c => readEntry c extractContent))) := by
  constructor
  · intro rssNode channelNode hr hc
    obtain ⟨h1, h2, _, _, _, _, _, h8⟩ :=
      parseRssFeed_channel rssNode.node channelNode extractContent hc
    refine ⟨(parseRssFeed rssNode.node {} extractContent).1, _, ?_, h2, h8, by simp, ?_, ?_⟩
    · unfold ParseFeed
      rw [hr]
      simp only [h1]
    · intro k; simp
    · intro h
      have : channelNode.node.childrenNamed "item" = [] := by
        unfold xml_node.childrenNamed
        rw [List.filter_eq_nil_iff]
        intro c hc
        simpa using h c hc
      rw [this]
      rfl
  · intro feedNode hr hf
    obtain ⟨h1, _, _, _, _, _, h7⟩ := parseAtomFeed_fields feedNode.node extractContent
    refine ⟨parseAtomFeed feedNode.node {} extractContent, _, ?_, h1, h7, by simp, ?_⟩
    · unfold ParseFeed
      rw [hr, hf]
    · intro k; simp

/-- Witness of C9 at `<rss><channel><title>t</title></channel></rss>`: a channel
without items gives a record with `type = rss` and `items = []`. -/
theorem C9_items_in_document_order_witness :
    ∃ feed : Feed,
      ParseFeed
          ⟨[.element "rss" [] [.element "channel" [] [.element "title" [] [.data "t"]]]]⟩
          true = ⟨none, some feed⟩ ∧
      feed.type = some "rss" ∧ feed.items = some [] := by
  obtain ⟨feed, items, h1, h2, h3, _, _, h6⟩ :=
    (C9_items_in_document_order
      ⟨[.element "rss" [] [.element "channel" [] [.element "title" [] [.data "t"]]]]⟩ true).1
      ⟨.element "rss" [] [.element "channel" [] [.element "title" [] [.data "t"]]], []⟩
      ⟨.element "channel" [] [.element "title" [] [.data "t"]], []⟩ rfl rfl
  have hi : items = [] :=
    h6 (by intro c hc; simp [xml_node.children] at hc; subst hc; decide)
  exact ⟨feed, h1, h2, by rw [h3, hi]⟩

/-! ## The `extractContent` flag -/

theorem readItem_false (itemNode : xml_node) :
    readItem itemNode false = (readItem itemNode true).withoutContent ∧
    (readItem itemNode true).summary = none ∧ (readItem itemNode true).content = none := by
  unfold readItem Item.withoutContent
  generalize readTextNode itemNode "guid" = a
  generalize readTextNode itemNode "link" = b
  generalize readTextNode itemNode "pubDate" = c
  generalize readTextNode itemNode "dc:date" = d
  generalize readTextNode itemNode "title" = e
  generalize readTextNode itemNode "author" = f
  generalize readTextNode itemNode "description" = g
  cases a <;> cases b <;> cases c <;> cases d <;> cases e <;> cases f <;> cases g <;>
    exact ⟨rfl, rfl, rfl⟩

theorem readEntry_false (itemNode : xml_node) :
    readEntry itemNode false = (readEntry itemNode true).withoutContent ∧
    (readEntry itemNode true).description = none := by
  unfold readEntry Item.withoutContent
  generalize readTextNode itemNode "id" = a
  generalize linksLoop (itemNode.first_node (some "link")) [] = b
  generalize readTextNode itemNode "published" = c
  generalize readTextNode itemNode "updated" = d
  generalize readTextNode itemNode "title" = e
  generalize readTextNode itemNode "author" = f
  generalize readTextNode itemNode "summary" = g
  generalize readTextNode itemNode "content" = h
  cases a <;> cases c <;> cases d <;> cases e <;> cases f <;> cases g <;> cases h <;>
    exact ⟨rfl, rfl⟩

theorem parseRssFeed_false (rssNode : xml_node) :
    parseRssFeed rssNode {} false =
      ((parseRssFeed rssNode {} true).1.withoutContent, (parseRssFeed rssNode {} true).2) := by
  unfold parseRssFeed
  cases h : rssNode.first_node (some "channel") with
  | none => rfl
  | some channelNode =>
    simp only []
    have hl : ∀ ec : Bool, itemsLoop ec (channelNode.node.first_node (some "item")) [] =
        (channelNode.node.childrenNamed "item").map (fun c => readItem c ec) := by
      intro ec
      unfold xml_node.first_node xml_node.childrenNamed
      rw [itemsLoop_eq]
      simp
    rw [hl false, hl true]
    have hm : (channelNode.node.childrenNamed "item").map (fun c => readItem c false) =
        ((channelNode.node.childrenNamed "item").map (fun c => readItem c true)).map
          Item.withoutContent := by
      rw [List.map_map]
      apply List.map_congr_left
      intro c _
      exact (readItem_false c).1
    rw [hm]
    generalize readTextNode channelNode.node "title" = a
    generalize readTextNode channelNode.node "description" = b
    generalize readTextNode channelNode.node "link" = c
    generalize readTextNode channelNode.node "author" = d
    cases a <;> cases b <;> cases c <;> cases d <;> rfl

theorem parseAtomFeed_false (feedNode : xml_node) :
    parseAtomFeed feedNode {} false = (parseAtomFeed feedNode {} true).withoutContent := by
  unfold parseAtomFeed
  have hl : ∀ ec : Bool, entriesLoop ec (feedNode.first_node (some "entry")) [] =
      (feedNode.childrenNamed "entry").map (fun c => readEntry c ec) := by
    intro ec
    unfold xml_node.first_node xml_node.childrenNamed
    rw [entriesLoop_eq]
    simp
  rw [hl false, hl true]
  have hm : (feedNode.childrenNamed "entry").map (fun c => readEntry c false) =
      ((feedNode.childrenNamed "entry").map (fun c => readEntry c true)).map
        Item.withoutContent := by
    rw [List.map_map]
    apply List.map_congr_left
    intro c _
    exact (readEntry_false c).1
  rw [hm]
  generalize readTextNode feedNode "title" = a
  generalize readTextNode feedNode "id" = b
  generalize readTextNode feedNode "author" = d
  cases hk : feedNode.first_node (some "link") with
  | none => cases a <;> cases b <;> cases d <;> rfl
  | some linkNode =>
    simp only []
    generalize linkNode.node.first_attribute "href" = k
    cases k <;> cases a <;> cases b <;> cases d <;> rfl

/-- C8: the outcome with `extractContent = false` is the outcome with
`extractContent = true` with `description`, `summary` and `content` removed
from every item: the scheduled error (if any), every property of the feed,
the number and order of the items and every other property of each item are
the same, and no item of the `false` result has any of the three. -/
theorem C8_extract_content_flag (doc : xml_document) :
    ParseFeed doc false = (ParseFeed doc true).withoutContent ∧
    (∀ feed : Feed, (ParseFeed doc false).returned = some feed →
      ∀ items : List Item, feed.items = some items →
        ∀ item ∈ items,
          item.description = none ∧ item.summary = none ∧ item.content = none) := by
  have hmain : ParseFeed doc false = (ParseFeed doc true).withoutContent := by
    unfold ParseFeed CallOutcome.withoutContent
    cases doc.first_node (some "rss") with
    | some rssNode =>
      simp only [parseRssFeed_false rssNode.node, Option.map_some']
    | none =>
      cases doc.first_node (some "feed") with
      | some feedNode => simp only [parseAtomFeed_false feedNode.node, Option.map_some']
      | none => rfl
  refine ⟨hmain, ?_⟩
  intro feed hf items hi item hmem
  rw [hmain] at hf
  unfold CallOutcome.withoutContent at hf
  cases hr : (ParseFeed doc true).returned with
  | none => rw [hr] at hf; simp at hf
  | some feed1 =>
    rw [hr] at hf
    simp only [Option.map_some', Option.some.injEq] at hf
    subst hf
    unfold Feed.withoutContent at hi
    cases h1 : feed1.items with
    | none => rw [h1] at hi; simp at hi
    | some items1 =>
      rw [h1] at hi
      simp only [Option.map_some', Option.some.injEq] at hi
      subst hi
      obtain ⟨x, _, hx⟩ := List.mem_map.mp hmem
      subst hx
      exact ⟨rfl, rfl, rfl⟩

/-- Witness of C8 at an RSS document with one item that has a title and a
description. -/
theorem C8_extract_content_flag_witness :
    ParseFeed ⟨[.element "rss" [] [.element "channel" []
        [.element "item" [] [.element "title" [] [.data "t"],
          .element "description" [] [.data "d"]]]]]⟩ false =
      (ParseFeed ⟨[.element "rss" [] [.element "channel" []
        [.element "item" [] [.element "title" [] [.data "t"],
          .element "description" [] [.data "d"]]]]]⟩ true).withoutContent :=
  (C8_extract_content_flag ⟨[.element "rss" [] [.element "channel" []
        [.element "item" [] [.element "title" [] [.data "t"],
          .element "description" [] [.data "d"]]]]]⟩).1

/-! ## The feed-level link of an Atom feed -/

/-- C10: the `link` of an Atom feed is the value of the `href` attribute of the
first child named `link`: it is set exactly when that first `link` child
exists and carries an `href` attribute.  Neither the content of the `link`
element nor any later `link` element plays a part: when the first `link` has no
`href`, the feed has no `link`, whatever follows it. -/
theorem C10_atom_feed_link (feedNode : xml_node) (extractContent : Bool) :
    (parseAtomFeed feedNode {} extractContent).link =
      (match feedNode.first_node (some "link") with
       | none => none
       | some linkNode => (linkNode.node.first_attribute "href").map xml_attribute.value) ∧
    ((parseAtomFeed feedNode {} extractContent).link ≠ none ↔
      ∃ linkNode : node_ptr, ∃ hrefAttr : xml_attribute,
        feedNode.first_node (some "link") = some linkNode ∧
        linkNode.node.first_attribute "href" = some hrefAttr) ∧
    (∀ linkNode : node_ptr, ∀ hrefAttr : xml_attribute,
      feedNode.first_node (some "link") = some linkNode →
      linkNode.node.first_attribute "href" = some hrefAttr →
      (parseAtomFeed feedNode {} extractContent).link = some hrefAttr.value) ∧
    (∀ linkNode : node_ptr,
      feedNode.first_node (some "link") = some linkNode →
      linkNode.node.first_attribute "href" = none →
      (parseAtomFeed feedNode {} extractContent).link = none) ∧
    ((∀ c ∈ feedNode.children, c.name ≠ "link") →
      (parseAtomFeed feedNode {} extractContent).link = none) := by
  have hl := (parseAtomFeed_fields feedNode extractContent).2.2.2.1
  refine ⟨hl, ?_, ?_, ?_, ?_⟩
  · rw [hl]
    cases hk : feedNode.first_node (some "link") with
    | none => simp
    | some linkNode =>
      cases ha : linkNode.node.first_attribute "href" with
      | none => simp [ha]
      | some a => simp [ha]
  · intro linkNode hrefAttr h1 h2
    rw [hl, h1]
    simp [h2]
  · intro linkNode h1 h2
    rw [hl, h1]
    simp [h2]
  · intro h
    have : feedNode.first_node (some "link") = none :=
      (find_sibling_none_iff "link" feedNode.children).mpr h
    rw [hl, this]

/-- Witness of C10 at a feed whose first `link` has text content and no `href`
and whose second `link` has an `href`: the feed has no `link`. -/
theorem C10_atom_feed_link_witness :
    (parseAtomFeed (.element "feed" []
      [.element "link" [⟨"rel", "self"⟩] [.data "http://text"],
       .element "link" [⟨"href", "http://second"⟩] []]) {} true).link = none :=
  (C10_atom_feed_link (.element "feed" []
      [.element "link" [⟨"rel", "self"⟩] [.data "http://text"],
       .element "link" [⟨"href", "http://second"⟩] []]) true).2.2.2.1
    ⟨.element "link" [⟨"rel", "self"⟩] [.data "http://text"],
      [.element "link" [⟨"href", "http://second"⟩] []]⟩ rfl rfl

/-! ## Error locator: the run of the loop -/

theorem scanStep_eq (xml : List Char) (where_ : Int) (s : ScanState) :
    scanStep xml where_ s =
      if (s.i : Int) = where_ then none else some (advance s (readChar xml s.i)) := by
  unfold scanStep advance
  by_cases h : (s.i : Int) = where_
  · simp [h]
  · simp only [h, if_false]
    by_cases hc : readChar xml s.i = '\n'
    · simp [hc]
    · simp [hc]

theorem scanLoop_run (xml : List Char) (off : Nat) :
    ∀ (n : Nat) (s : ScanState) (fuel : Nat), s.i + n = off → n < fuel →
      scanLoop xml off fuel s =
        some ⟨((List.range' s.i n).map (readChar xml)).foldl advance s, List.range' s.i n⟩ := by
  intro n
  induction n with
  | zero =>
    intro s fuel hi hf
    cases fuel with
    | zero => omega
    | succ f =>
      have : (s.i : Int) = (off : Int) := by omega
      simp [scanLoop, scanStep_eq, this]
  | succ n ih =>
    intro s fuel hi hf
    cases fuel with
    | zero => omega
    | succ f =>
      have hne : ¬ ((s.i : Int) = (off : Int)) := by omega
      have hnext := ih (advance s (readChar xml s.i)) f
        (by unfold advance; split <;> simp <;> omega) (by omega)
      have hi2 : (advance s (readChar xml s.i)).i = s.i + 1 := by
        unfold advance; split <;> rfl
      rw [hi2] at hnext
      simp [scanLoop, scanStep_eq, hne, hnext, List.range'_succ]

theorem scanLoop_short (xml : List Char) (off : Nat) :
    ∀ (fuel : Nat) (s : ScanState), s.i + fuel ≤ off → scanLoop xml off fuel s = none := by
  intro fuel
  induction fuel with
  | zero => intro s _; rfl
  | succ f ih =>
    intro s h
    have hne : ¬ ((s.i : Int) = (off : Int)) := by omega
    have hi2 : (advance s (readChar xml s.i)).i = s.i + 1 := by
      unfold advance; split <;> rfl
    have := ih (advance s (readChar xml s.i)) (by rw [hi2]; omega)
    simp [scanLoop, scanStep_eq, hne, this]

theorem scanLoop_before_buffer (xml : List Char) (where_ : Int) (hneg : where_ < 0) :
    ∀ (fuel : Nat) (s : ScanState), scanLoop xml where_ fuel s = none := by
  intro fuel
  induction fuel with
  | zero => intro s; rfl
  | succ f ih =>
    intro s
    have hne : ¬ ((s.i : Int) = where_) := by omega
    simp [scanLoop, scanStep_eq, hne, ih]

theorem map_readChar_range (xml : List Char) (off : Nat) (h : off ≤ xml.length) :
    (List.range' 0 off).map (readChar xml) = xml.take off := by
  apply List.ext_getElem
  · simp [h]
  · intro j h1 h2
    have hj : j < off := by simpa using h1
    have hjl : j < xml.length := by omega
    simp [readChar, List.getD_eq_getElem, hjl]

theorem foldl_advance_ln (l : List Char) (s : ScanState) :
    (l.foldl advance s).ln = s.ln + l.count '\n' := by
  induction l generalizing s with
  | nil => simp
  | cons c rest ih =>
    rw [List.foldl_cons, ih]
    by_cases hc : c = '\n'
    · subst hc
      simp [advance]
      omega
    · have : ('\n' == c) = false := by
        simp
        exact fun e => hc e.symm
      simp [advance, hc, List.count_cons, this]

theorem foldl_advance_col_plain (l : List Char) (s : ScanState)
    (hl : ∀ c ∈ l, c ≠ '\n') : (l.foldl advance s).col = s.col + l.length := by
  induction l generalizing s with
  | nil => simp
  | cons c rest ih =>
    have hc : c ≠ '\n' := hl c (List.mem_cons_self c rest)
    rw [List.foldl_cons, ih _ (fun d hd => hl d (List.mem_cons_of_mem c hd))]
    simp [advance, hc]
    omega

theorem foldl_advance_col_after_newline (pre post : List Char) (s : ScanState)
    (hpost : ∀ c ∈ post, c ≠ '\n') :
    ((pre ++ '\n' :: post).foldl advance s).col = post.length := by
  rw [List.foldl_append, List.foldl_cons, foldl_advance_col_plain post _ hpost]
  simp [advance]

theorem findErrorLine_eq (xml : List Char) (offset fuel : Nat)
    (h : offset ≤ xml.length) (hf : offset < fuel) :
    findErrorLine xml offset fuel =
      some (1 + (xml.take offset).count '\n',
        ((xml.take offset).foldl advance scanInit).col) := by
  unfold findErrorLine
  rw [scanLoop_run xml offset offset scanInit fuel (by simp [scanInit]) hf]
  have : scanInit.i = 0 := rfl
  rw [this, map_readChar_range xml offset h]
  simp only [Option.map_some', foldl_advance_ln]
  rfl

/-! ## Error locator: line and column -/

/-- C11: for an offset within the text, `findErrorLine` returns (given fuel for
`offset + 1` evaluations of the exit test) a line that is 1 plus the number of
newline characters among the first `offset` characters; offset 0 gives line 1. -/
theorem C11_line_number (xml : List Char) (offset fuel : Nat)
    (h : offset ≤ xml.length) (hf : offset < fuel) :
    (findErrorLine xml offset fuel).map Prod.fst =
      some (1 + (xml.take offset).count '\n') ∧
    (findErrorLine xml (0 : Nat) fuel).map Prod.fst = some 1 := by
  constructor
  · rw [findErrorLine_eq xml offset fuel h hf]
    rfl
  · rw [findErrorLine_eq xml 0 fuel (Nat.zero_le _) (by omega)]
    simp

/-- Witness of C11 at the text "ab\ncd\n<e" with the offset of `<` (7), which
is on the third line: the line returned is 3. -/
theorem C11_line_number_witness :
    (7 : Nat) ≤ ['a', 'b', '\n', 'c', 'd', '\n', 'e', '<'].length ∧
    (findErrorLine ['a', 'b', '\n', 'c', 'd', '\n', 'e', '<'] (7 : Nat) 8).map Prod.fst =
      some 3 :=
  ⟨by decide,
   (C11_line_number ['a', 'b', '\n', 'c', 'd', '\n', 'e', '<'] 7 8
      (by decide) (by decide)).1⟩

/-- C12 fails on the code at the text "a\nb" with offset 2, the first character
of the second line: the pair returned is line 2, column 0, not column 1; on the
first line the same position (offset 0) gives column 1. -/
theorem C12_column_zero_after_newline :
    findErrorLine ['a', '\n', 'b'] (2 : Nat) 3 = some (2, 0) ∧
    findErrorLine ['a', '\n', 'b'] (0 : Nat) 3 = some (1, 1) := by
  constructor <;> decide

/-- C18: the column returned for an offset within the text is `offset + 1` when
no newline occurs among the first `offset` characters, and otherwise
`offset - k - 1`, where `k` is the index of the last newline before the offset;
offset 0 gives the pair (1, 1). -/
theorem C18_column_closed_form (xml : List Char) (offset fuel : Nat)
    (h : offset ≤ xml.length) (hf : offset < fuel) :
    ((∀ j : Nat, j < offset → xml[j]? ≠ some '\n') →
      (findErrorLine xml offset fuel).map Prod.snd = some (offset + 1)) ∧
    (∀ k : Nat, k < offset → xml[k]? = some '\n' →
      (∀ j : Nat, k < j → j < offset → xml[j]? ≠ some '\n') →
      (findErrorLine xml offset fuel).map Prod.snd = some (offset - k - 1)) ∧
    findErrorLine xml (0 : Nat) fuel = some (1, 1) := by
  have hlen : (xml.take offset).length = offset := by simp [h]
  refine ⟨?_, ?_, ?_⟩
  · intro hno
    rw [findErrorLine_eq xml offset fuel h hf]
    have hplain : ∀ c ∈ xml.take offset, c ≠ '\n' := by
      intro c hc hcn
      obtain ⟨j, hj, hget⟩ := List.mem_iff_getElem.mp hc
      rw [hlen] at hj
      have hjl : j < xml.length := by omega
      apply hno j hj
      rw [List.getElem_take] at hget
      rw [List.getElem?_eq_getElem hjl, hget, hcn]
    rw [foldl_advance_col_plain _ _ hplain, hlen]
    simp [scanInit]
    omega
  · intro k hk hnl hlast
    rw [findErrorLine_eq xml offset fuel h hf]
    have hkl : k < (xml.take offset).length := by omega
    have hkx : k < xml.length := by omega
    have hsplit : xml.take offset =
        (xml.take offset).take k ++ '\n' :: (xml.take offset).drop (k + 1) := by
      have h1 := (List.take_append_drop k (xml.take offset)).symm
      rw [List.drop_eq_getElem_cons hkl] at h1
      have h2 : (xml.take offset)[k] = '\n' := by
        rw [List.getElem_take]
        rw [List.getElem?_eq_getElem hkx] at hnl
        exact Option.some.inj hnl
      rw [h2] at h1
      exact h1
    have hpost : ∀ c ∈ (xml.take offset).drop (k + 1), c ≠ '\n' := by
      intro c hc hcn
      obtain ⟨j, hj, hget⟩ := List.mem_iff_getElem.mp hc
      have hj2 : k + 1 + j < offset := by
        simp only [List.length_drop, hlen] at hj
        omega
      have hjl : k + 1 + j < xml.length := by omega
      apply hlast (k + 1 + j) (by omega) hj2
      rw [List.getElem_drop, List.getElem_take] at hget
      rw [List.getElem?_eq_getElem hjl, hget, hcn]
    rw [hsplit, foldl_advance_col_after_newline _ _ _ hpost]
    simp only [Option.map_some', List.length_drop, hlen]
    congr 1
  · rw [findErrorLine_eq xml 0 fuel (Nat.zero_le _) (by omega)]
    simp [scanInit]

/-- Witness of C18 at the text "ab\ncd\n<e" with offset 8 (the `e`): the last
newline before it is at index 5, and the column is 8 - 5 - 1 = 2. -/
theorem C18_column_closed_form_witness :
    (8 : Nat) ≤ ['a', 'b', '\n', 'c', 'd', '\n', '<', 'e'].length ∧
    (findErrorLine ['a', 'b', '\n', 'c', 'd', '\n', '<', 'e'] (8 : Nat) 9).map Prod.snd =
      some 2 :=
  ⟨by decide,
   (C18_column_closed_form ['a', 'b', '\n', 'c', 'd', '\n', '<', 'e'] 8 9
      (by decide) (by decide)).2.1 5 (by decide) (by decide)
      (by intro j h1 h2
          have : j = 6 ∨ j = 7 := by omega
          rcases this with rfl | rfl <;> decide)⟩

/-! ## Error locator: termination and reads -/

/-- C17: for an offset within the text the loop reaches its `break` after
exactly `offset` passes that read a character (so with fuel for `offset + 1`
evaluations of the exit test, and not with less), the reads are at the indices
`0, 1, ..., offset - 1`, all inside the text, and the result is the same for
every text with the same first `offset` characters.  The exit test
`xml + i == where` is the only way out: a pass breaks exactly when `i` equals
the offset, so with `where` before the buffer the loop never breaks, and with
`where` beyond the end of the text it keeps reading past the end. -/
theorem C17_scan_reads_and_exit (xml : List Char) (offset : Nat)
    (h : offset ≤ xml.length) :
    (∀ fuel : Nat, offset < fuel →
      ∃ run : ScanRun, scanLoop xml offset fuel scanInit = some run ∧
        run.final.i = offset ∧ run.reads = List.range offset ∧
        run.reads.length = offset ∧
        ∀ j ∈ run.reads, j < offset ∧ j < xml.length) ∧
    (∀ fuel : Nat, fuel ≤ offset → scanLoop xml offset fuel scanInit = none) ∧
    (∀ (other : List Char) (fuel : Nat), other.take offset = xml.take offset →
      findErrorLine other offset fuel = findErrorLine xml offset fuel) ∧
    (∀ (where_ : Int) (s : ScanState),
      scanStep xml where_ s = none ↔ (s.i : Int) = where_) ∧
    (∀ where_ : Int, where_ < 0 →
      ∀ fuel : Nat, scanLoop xml where_ fuel scanInit = none) ∧
    (∀ far fuel : Nat, xml.length < far → far < fuel →
      ∃ run : ScanRun, scanLoop xml far fuel scanInit = some run ∧
        run.reads.length = far ∧ xml.length ∈ run.reads) := by
  have hi0 : scanInit.i = 0 := rfl
  refine ⟨?_, ?_, ?_, ?_, ?_, ?_⟩
  · intro fuel hf
    have hrun := scanLoop_run xml offset offset scanInit fuel (by simp [scanInit]) hf
    rw [hi0] at hrun
    refine ⟨_, hrun, ?_, ?_, ?_, ?_⟩
    · rw [map_readChar_range xml offset h]
      have : ∀ (l : List Char) (s : ScanState), (l.foldl advance s).i = s.i + l.length := by
        intro l
        induction l with
        | nil => intro s; rfl
        | cons c rest ih =>
          intro s
          rw [List.foldl_cons, ih]
          have : (advance s c).i = s.i + 1 := by unfold advance; split <;> rfl
          rw [this, List.length_cons]
          omega
      rw [this, hi0]
      simp [h]
    · exact (List.range_eq_range' (n := offset)).symm
    · simp
    · intro j hj
      have : j < offset := by simpa using hj
      exact ⟨this, by omega⟩
  · intro fuel hf
    exact scanLoop_short xml offset fuel scanInit (by rw [hi0]; omega)
  · intro other fuel htake
    have hother : offset ≤ other.length := by
      have h1 : (other.take offset).length = (xml.take offset).length := by rw [htake]
      simp only [List.length_take] at h1
      omega
    by_cases hf : offset < fuel
    · rw [findErrorLine_eq other offset fuel hother hf, findErrorLine_eq xml offset fuel h hf,
        htake]
    · unfold findErrorLine
      rw [scanLoop_short other offset fuel scanInit (by rw [hi0]; omega),
        scanLoop_short xml offset fuel scanInit (by rw [hi0]; omega)]
  · intro where_ s
    rw [scanStep_eq]
    by_cases hw : (s.i : Int) = where_
    · simp [hw]
    · simp [hw]
  · intro where_ hneg fuel
    exact scanLoop_before_buffer xml where_ hneg fuel scanInit
  · intro far fuel hfar hf
    have hrun := scanLoop_run xml far far scanInit fuel (by simp [scanInit]) hf
    rw [hi0] at hrun
    refine ⟨_, hrun, by simp, ?_⟩
    simp only [List.mem_range'_1]
    omega

/-- Witness of C17 at the text "a\nb" with offset 2: two reads, at the indices
0 and 1, and the `break` at `i = 2`. -/
theorem C17_scan_reads_and_exit_witness :
    (2 : Nat) ≤ ['a', '\n', 'b'].length ∧
    ∃ run : ScanRun, scanLoop ['a', '\n', 'b'] (2 : Nat) 3 scanInit = some run ∧
      run.final.i = 2 ∧ run.reads = [0, 1] := by
  refine ⟨by decide, ?_⟩
  obtain ⟨run, h1, h2, h3, _, _⟩ :=
    (C17_scan_reads_and_exit ['a', '\n', 'b'] 2 (by decide)).1 3 (by decide)
  exact ⟨run, h1, h2, by rw [h3]; rfl⟩

/-! ## Dispatch by top-level lookup -/

theorem ParseFeed_of_rss (doc : xml_document) (ec : Bool) (rssNode : node_ptr)
    (h : doc.first_node (some "rss") = some rssNode) :
    ParseFeed doc ec =
      ⟨(parseRssFeed rssNode.node {} ec).2, some (parseRssFeed rssNode.node {} ec).1⟩ := by
  unfold ParseFeed
  rw [h]

theorem ParseFeed_of_feed (doc : xml_document) (ec : Bool) (feedNode : node_ptr)
    (hr : doc.first_node (some "rss") = none)
    (hf : doc.first_node (some "feed") = some feedNode) :
    ParseFeed doc ec = ⟨none, some (parseAtomFeed feedNode.node {} ec)⟩ := by
  unfold ParseFeed
  rw [hr, hf]

theorem ParseFeed_of_neither (doc : xml_document) (ec : Bool)
    (hr : doc.first_node (some "rss") = none)
    (hf : doc.first_node (some "feed") = none) :
    ParseFeed doc ec = ⟨some "Invalid feed.", none⟩ := by
  unfold ParseFeed
  rw [hr, hf]

theorem parseRssFeed_type (rssNode : xml_node) (ec : Bool) :
    (parseRssFeed rssNode {} ec).1.type = some "rss" := by
  cases h : rssNode.first_node (some "channel") with
  | none =>
    unfold parseRssFeed
    rw [h]
  | some channelNode => exact (parseRssFeed_channel rssNode channelNode ec h).2.1

theorem find_sibling_first (name : String) (pre post : List xml_node) (r : xml_node)
    (hpre : ∀ c ∈ pre, c.name ≠ name) (hr : r.name = name) :
    find_sibling (some name) (pre ++ r :: post) = some ⟨r, post⟩ := by
  induction pre with
  | nil => simp [find_sibling, name_matches, hr]
  | cons c rest ih =>
    have hc : c.name ≠ name := hpre c (List.mem_cons_self c rest)
    have := ih (fun d hd => hpre d (List.mem_cons_of_mem c hd))
    simp [find_sibling, name_matches, hc, this]

theorem find_sibling_some_mem (name : String) (l : List xml_node) (p : node_ptr)
    (h : find_sibling (some name) l = some p) : p.node ∈ l ∧ p.node.name = name := by
  induction l with
  | nil => simp [find_sibling] at h
  | cons c rest ih =>
    unfold find_sibling at h
    by_cases hc : c.name = name
    · simp [name_matches, hc] at h
      subst h
      exact ⟨List.mem_cons_self _ _, hc⟩
    · simp [name_matches, hc] at h
      exact ⟨List.mem_cons_of_mem c (ih h).1, (ih h).2⟩

/-- C13: a missing optional element is never an error.  For a document with
exactly one top-level element `root`: when `root` is named `feed` the call
succeeds with a record of `type = atom`, whatever `root` contains; when `root`
is named `rss` and has a child named `channel` the call succeeds with a record
of `type = rss`, whatever else the channel contains.  For every document, a
record that is returned has type `rss` or `atom`. -/
theorem C13_optional_fields_never_fail (doc : xml_document) (root : xml_node)
    (extractContent : Bool)
    (hroot : doc.children.filter xml_node.isElement = [root]) :
    (root.name = "feed" →
      ∃ feed : Feed, ParseFeed doc extractContent = ⟨none, some feed⟩ ∧
        (ParseFeed doc extractContent).result = .ok (some feed) ∧
        feed.type = some "atom") ∧
    (root.name = "rss" → (∃ c ∈ root.children, c.name = "channel") →
      ∃ feed : Feed, ParseFeed doc extractContent = ⟨none, some feed⟩ ∧
        (ParseFeed doc extractContent).result = .ok (some feed) ∧
        feed.type = some "rss") ∧
    (∀ (anyDoc : xml_document) (feed : Feed),
      (ParseFeed anyDoc extractContent).returned = some feed →
      feed.type = some "rss" ∨ feed.type = some "atom") := by
  have hrss := first_node_single_root doc root "rss" (by decide) hroot
  have hfeed := first_node_single_root doc root "feed" (by decide) hroot
  refine ⟨?_, ?_, ?_⟩
  · intro hname
    have hnr : root.name ≠ "rss" := by rw [hname]; decide
    rw [if_neg hnr] at hrss
    rw [if_pos hname] at hfeed
    cases hr : doc.first_node (some "rss") with
    | some p => rw [hr] at hrss; simp at hrss
    | none =>
      cases hf : doc.first_node (some "feed") with
      | none => rw [hf] at hfeed; simp at hfeed
      | some q =>
        have hout := ParseFeed_of_feed doc extractContent q hr hf
        exact ⟨_, hout, by rw [hout]; rfl, (parseAtomFeed_fields q.node extractContent).1⟩
  · intro hname hch
    rw [if_pos hname] at hrss
    cases hr : doc.first_node (some "rss") with
    | none => rw [hr] at hrss; simp at hrss
    | some p =>
      rw [hr] at hrss
      simp only [Option.map_some', Option.some.injEq] at hrss
      have hout := ParseFeed_of_rss doc extractContent p hr
      cases hc : p.node.first_node (some "channel") with
      | none =>
        obtain ⟨c, hcm, hcn⟩ := hch
        rw [← hrss] at hcm
        exact absurd hcn ((find_sibling_none_iff "channel" p.node.children).mp hc c hcm)
      | some channelNode =>
        obtain ⟨h1, h2, _⟩ := parseRssFeed_channel p.node channelNode extractContent hc
        rw [h1] at hout
        exact ⟨_, hout, by rw [hout]; rfl, h2⟩
  · intro anyDoc feed hret
    cases hr : anyDoc.first_node (some "rss") with
    | some p =>
      rw [ParseFeed_of_rss anyDoc extractContent p hr] at hret
      simp only [Option.some.injEq] at hret
      subst hret
      exact Or.inl (parseRssFeed_type p.node extractContent)
    | none =>
      cases hf : anyDoc.first_node (some "feed") with
      | some q =>
        rw [ParseFeed_of_feed anyDoc extractContent q hr hf] at hret
        simp only [Option.some.injEq] at hret
        subst hret
        exact Or.inr (parseAtomFeed_fields q.node extractContent).1
      | none =>
        rw [ParseFeed_of_neither anyDoc extractContent hr hf] at hret
        simp at hret

/-- Witness of C13 at the document `<feed/>`: an Atom feed with no child at all
is parsed, with `type = atom`. -/
theorem C13_optional_fields_never_fail_witness :
    (xml_document.mk [.element "feed" [] []]).children.filter xml_node.isElement =
      [.element "feed" [] []] ∧
    ∃ feed : Feed, (ParseFeed ⟨[.element "feed" [] []]⟩ true).result = .ok (some feed) ∧
      feed.type = some "atom" := by
  refine ⟨rfl, ?_⟩
  obtain ⟨feed, _, h2, h3⟩ :=
    (C13_optional_fields_never_fail ⟨[.element "feed" [] []]⟩ (.element "feed" [] []) true
      rfl).1 rfl
  exact ⟨feed, h2, h3⟩

/-- C19: the dialect is chosen by looking up top-level nodes by name, `rss`
first.  When a top-level node named `rss` exists, the outcome is that of the
RSS extractor run on the first such node (with the error "Invalid RSS
channel." when it has no channel), whatever top-level nodes come before or
after it, a `feed` node included; the Atom extractor's record is the outcome
only when no top-level node is named `rss` and one is named `feed`. -/
theorem C19_rss_lookup_first (doc : xml_document) (extractContent : Bool) :
    (∀ (pre post : List xml_node) (r : xml_node),
      doc.children = pre ++ r :: post → (∀ c ∈ pre, c.name ≠ "rss") → r.name = "rss" →
      ParseFeed doc extractContent =
        ⟨(parseRssFeed r {} extractContent).2, some (parseRssFeed r {} extractContent).1⟩ ∧
      ((∀ c ∈ r.children, c.name ≠ "channel") →
        (ParseFeed doc extractContent).result = .error "Invalid RSS channel.")) ∧
    (∀ (pre post : List xml_node) (f : xml_node),
      (∀ c ∈ doc.children, c.name ≠ "rss") →
      doc.children = pre ++ f :: post → (∀ c ∈ pre, c.name ≠ "feed") → f.name = "feed" →
      ParseFeed doc extractContent = ⟨none, some (parseAtomFeed f {} extractContent)⟩) ∧
    (∀ feed : Feed, (ParseFeed doc extractContent).returned = some feed →
      feed.type = some "atom" →
      (∀ c ∈ doc.children, c.name ≠ "rss") ∧ ∃ c ∈ doc.children, c.name = "feed") := by
  refine ⟨?_, ?_, ?_⟩
  · intro pre post r hsplit hpre hr
    have hfirst : doc.first_node (some "rss") = some ⟨r, post⟩ := by
      unfold xml_document.first_node
      rw [hsplit]
      exact find_sibling_first "rss" pre post r hpre hr
    have hout := ParseFeed_of_rss doc extractContent ⟨r, post⟩ hfirst
    refine ⟨hout, ?_⟩
    intro hch
    have hnone : r.first_node (some "channel") = none :=
      (find_sibling_none_iff "channel" r.children).mpr hch
    have hp : (parseRssFeed r {} extractContent).2 = some "Invalid RSS channel." := by
      unfold parseRssFeed
      rw [hnone]
    rw [hout]
    simp only [hp]
    rfl
  · intro pre post f hno hsplit hpre hf
    have hr : doc.first_node (some "rss") = none :=
      (find_sibling_none_iff "rss" doc.children).mpr hno
    have hfirst : doc.first_node (some "feed") = some ⟨f, post⟩ := by
      unfold xml_document.first_node
      rw [hsplit]
      exact find_sibling_first "feed" pre post f hpre hf
    exact ParseFeed_of_feed doc extractContent ⟨f, post⟩ hr hfirst
  · intro feed hret htype
    cases hr : doc.first_node (some "rss") with
    | some p =>
      rw [ParseFeed_of_rss doc extractContent p hr] at hret
      simp only [Option.some.injEq] at hret
      subst hret
      rw [parseRssFeed_type p.node extractContent] at htype
      exact absurd htype (by decide)
    | none =>
      cases hf : doc.first_node (some "feed") with
      | some q =>
        exact ⟨(find_sibling_none_iff "rss" doc.children).mp hr,
          q.node, find_sibling_some_mem "feed" doc.children q hf⟩
      | none =>
        rw [ParseFeed_of_neither doc extractContent hr hf] at hret
        simp at hret

/-- Witness of C19 at the top-level nodes `<feed><entry/></feed><rss/>`: the
`feed` node comes first, yet the RSS extractor runs on the `rss` node and the
call fails with "Invalid RSS channel.". -/
theorem C19_rss_lookup_first_witness :
    (ParseFeed ⟨[.element "feed" [] [.element "entry" [] []], .element "rss" [] []]⟩
        true).result = .error "Invalid RSS channel." :=
  ((C19_rss_lookup_first
      ⟨[.element "feed" [] [.element "entry" [] []], .element "rss" [] []]⟩ true).1
      [.element "feed" [] [.element "entry" [] []]] [] (.element "rss" [] []) rfl
      (by intro c hc; simp at hc; subst hc; decide) rfl).2
    (by intro c hc; simp [xml_node.children] at hc)

/-! ## RSS fields, name by name -/

theorem readItem_fields (itemNode : xml_node) (ec : Bool) :
    (readItem itemNode ec).id = readTextNode itemNode "guid" ∧
    (readItem itemNode ec).link = readTextNode itemNode "link" ∧
    (readItem itemNode ec).title = readTextNode itemNode "title" ∧
    (readItem itemNode ec).author = readTextNode itemNode "author" ∧
    (readItem itemNode ec).links = none := by
  unfold readItem
  generalize readTextNode itemNode "guid" = a
  generalize readTextNode itemNode "link" = b
  generalize readTextNode itemNode "pubDate" = c
  generalize readTextNode itemNode "dc:date" = d
  generalize readTextNode itemNode "title" = e
  generalize readTextNode itemNode "author" = f
  generalize readTextNode itemNode "description" = g
  cases a <;> cases b <;> cases c <;> cases d <;> cases e <;> cases f <;> cases g <;>
    cases ec <;> exact ⟨rfl, rfl, rfl, rfl, rfl⟩

/-- C14 (as amended): for an `rss` node with a channel, the feed's `title`,
`description`, `link`, `author` are `readTextNode` of the channel for those
names, and an item's `id`, `link`, `title`, `author` are `readTextNode` of the
item for `guid`, `link`, `title`, `author`; a field is left out exactly when
the element is absent, it is the empty string when the element is present but
empty, and an RSS item has no `links`. -/
theorem C14_rss_fields_by_name (rssNode : xml_node) (channelNode : node_ptr)
    (extractContent : Bool)
    (h : rssNode.first_node (some "channel") = some channelNode) :
    ((parseRssFeed rssNode {} extractContent).1.title =
        readTextNode channelNode.node "title" ∧
      (parseRssFeed rssNode {} extractContent).1.description =
        readTextNode channelNode.node "description" ∧
      (parseRssFeed rssNode {} extractContent).1.link =
        readTextNode channelNode.node "link" ∧
      (parseRssFeed rssNode {} extractContent).1.author =
        readTextNode channelNode.node "author") ∧
    (∀ itemNode : xml_node,
      (readItem itemNode extractContent).id = readTextNode itemNode "guid" ∧
      (readItem itemNode extractContent).link = readTextNode itemNode "link" ∧
      (readItem itemNode extractContent).title = readTextNode itemNode "title" ∧
      (readItem itemNode extractContent).author = readTextNode itemNode "author" ∧
      (readItem itemNode extractContent).links = none) ∧
    (∀ (parent : xml_node) (name : String),
      readTextNode parent name = none ↔ ∀ c ∈ parent.children, c.name ≠ name) ∧
    (∀ (parent : xml_node) (name : String) (child : node_ptr),
      parent.first_node (some name) = some child → child.node.children = [] →
      readTextNode parent name = some "") := by
  obtain ⟨_, _, ht, _, hl, hd, ha, _⟩ :=
    parseRssFeed_channel rssNode channelNode extractContent h
  refine ⟨⟨ht, hd, hl, ha⟩, fun itemNode => readItem_fields itemNode extractContent,
    readTextNode_eq_none_iff, ?_⟩
  intro parent name child hc hempty
  rw [readTextNode_of_first_node parent name child hc, hempty]

/-- Witness of C14 (as amended) at `<rss><channel><title/></channel></rss>`: the
feed's title is the empty string and it has no link. -/
theorem C14_rss_fields_by_name_witness :
    (parseRssFeed (.element "rss" [] [.element "channel" [] [.element "title" [] []]]) {}
        true).1.title = some "" ∧
    (parseRssFeed (.element "rss" [] [.element "channel" [] [.element "title" [] []]]) {}
        true).1.link = none := by
  obtain ⟨⟨h1, _, h3, _⟩, _, _, _⟩ :=
    C14_rss_fields_by_name (.element "rss" [] [.element "channel" [] [.element "title" [] []]])
      ⟨.element "channel" [] [.element "title" [] []], []⟩ true rfl
  exact ⟨by rw [h1]; decide, by rw [h3]; decide⟩

/-- C14 as stated fails at the item `<item><title><b/>tail</title></item>`: the
`title` element is present and not empty (it holds a nested element and the
text "tail"), and yet the item's `title` is the empty string. -/
theorem C14_empty_string_from_nonempty_element :
    (xml_node.element "item" []
        [.element "title" [] [.element "b" [] [], .data "tail"]]).first_node (some "title") =
      some ⟨.element "title" [] [.element "b" [] [], .data "tail"], []⟩ ∧
    (xml_node.element "title" [] [.element "b" [] [], .data "tail"]).children.length = 2 ∧
    (xml_node.element "title" [] [.element "b" [] [], .data "tail"]).ownText = some "tail" ∧
    (readItem (.element "item" []
        [.element "title" [] [.element "b" [] [], .data "tail"]]) true).title = some "" := by
  refine ⟨rfl, rfl, by decide, by decide⟩

/-! ## Only the first child with the name is read -/

theorem find_sibling_dropLaterNamed (name : String) (l : List xml_node) :
    (find_sibling (some name) (dropLaterNamed name l)).map node_ptr.node =
      (find_sibling (some name) l).map node_ptr.node := by
  induction l with
  | nil => rfl
  | cons c rest ih =>
    unfold dropLaterNamed
    by_cases hc : c.name = name
    · simp [find_sibling, name_matches, hc]
    · simpa [find_sibling, name_matches, hc] using ih

theorem dropLaterNamed_count (name : String) (l : List xml_node) :
    ((dropLaterNamed name l).filter (fun c => decide (c.name = name))).length ≤ 1 := by
  induction l with
  | nil => simp [dropLaterNamed]
  | cons c rest ih =>
    unfold dropLaterNamed
    by_cases hc : c.name = name
    · simp [hc, List.filter_cons, List.filter_filter]
    · simpa [hc, List.filter_cons] using ih

theorem readTextNode_congr (p q : xml_node) (name : String)
    (h : (p.first_node (some name)).map node_ptr.node =
      (q.first_node (some name)).map node_ptr.node) :
    readTextNode p name = readTextNode q name := by
  unfold readTextNode
  cases hp : p.first_node (some name) with
  | none =>
    cases hq : q.first_node (some name) with
    | none => rfl
    | some b => rw [hp, hq] at h; simp at h
  | some a =>
    cases hq : q.first_node (some name) with
    | none => rw [hp, hq] at h; simp at h
    | some b =>
      rw [hp, hq] at h
      simp only [Option.map_some', Option.some.injEq] at h
      simp only [h]

/-- C15: `readTextNode` reads the first child with the name only: removing
from the parent every later child with that name (which leaves at most one)
does not change the result, however many such children there are. -/
theorem C15_first_named_child_only (parent : xml_node) (name : String) :
    readTextNode (parent.withChildren (dropLaterNamed name parent.children)) name =
      readTextNode parent name ∧
    ((parent.withChildren (dropLaterNamed name parent.children)).childrenNamed name).length
      ≤ 1 := by
  cases parent with
  | element n as cs =>
    constructor
    · apply readTextNode_congr
      simp only [xml_node.withChildren, xml_node.first_node, xml_node.children]
      exact find_sibling_dropLaterNamed name cs
    · simp only [xml_node.withChildren, xml_node.childrenNamed, xml_node.children]
      exact dropLaterNamed_count name cs
  | data v => exact ⟨rfl, by simp [xml_node.withChildren, xml_node.childrenNamed, xml_node.children]⟩
  | cdata v => exact ⟨rfl, by simp [xml_node.withChildren, xml_node.childrenNamed, xml_node.children]⟩

/-- Witness of C15 at an item with two `title` children: the result is the
text of the first, with or without the second. -/
theorem C15_first_named_child_only_witness :
    readTextNode (.element "item" []
        [.element "title" [] [.data "one"], .element "title" [] [.data "two"]]) "title" =
      readTextNode (.element "item" [] [.element "title" [] [.data "one"]]) "title" :=
  (C15_first_named_child_only (.element "item" []
        [.element "title" [] [.data "one"], .element "title" [] [.data "two"]]) "title").1.symm

/-! ## The `text` of an Atom link -/

theorem readLink_text (linkNode : xml_node) :
    (readLink linkNode).text = (linkNode.first_node none).map (fun p => p.node.value) := by
  unfold readLink
  generalize linkNode.first_attribute "rel" = a
  generalize linkNode.first_attribute "href" = b
  generalize linkNode.first_attribute "type" = c
  generalize linkNode.first_attribute "hreflang" = d
  generalize linkNode.first_attribute "title" = e
  generalize linkNode.first_attribute "length" = f
  generalize linkNode.first_node none = g
  cases a <;> cases b <;> cases c <;> cases d <;> cases e <;> cases f <;> cases g <;>
    rfl

/-- C16 (as amended): the `text` of the object built for a `link` element is
present exactly when the element has a child node, and is then the value of
its first child node: the link's own text when its content begins with text,
the value of the nested element when it begins with one.  A link element
without content gets no `text` (not the empty string), whatever attributes it
carries. -/
theorem C16_link_text (linkNode : xml_node) :
    (readLink linkNode).text = linkNode.children.head?.map xml_node.value ∧
    ((readLink linkNode).text ≠ none ↔ linkNode.children ≠ []) ∧
    (linkNode.children = [] → (readLink linkNode).text = none) ∧
    (∀ (first : xml_node) (rest : List xml_node) (t : String),
      linkNode.children = first :: rest → first.textOf = some t →
      (readLink linkNode).text = some t ∧ linkNode.ownText = some t) ∧
    (∀ (name : String) (attrs others : List xml_attribute) (content : List xml_node),
      (readLink (.element name attrs content)).text =
        (readLink (.element name others content)).text) := by
  have hhead : ∀ n : xml_node,
      (readLink n).text = n.children.head?.map xml_node.value := by
    intro n
    rw [readLink_text]
    unfold xml_node.first_node
    cases n.children with
    | nil => rfl
    | cons first rest => simp [find_sibling, name_matches]
  refine ⟨hhead linkNode, ?_, ?_, ?_, ?_⟩
  · rw [hhead]
    cases linkNode.children with
    | nil => simp
    | cons first rest => simp
  · intro hempty
    rw [hhead, hempty]
    rfl
  · intro first rest t hc ht
    rw [hhead, hc]
    cases first with
    | element n as cs => simp [xml_node.textOf] at ht
    | data v =>
      simp only [xml_node.textOf, Option.some.injEq] at ht
      subst ht
      exact ⟨rfl, by simp [xml_node.ownText, hc, xml_node.textOf]⟩
    | cdata v =>
      simp only [xml_node.textOf, Option.some.injEq] at ht
      subst ht
      exact ⟨rfl, by simp [xml_node.ownText, hc, xml_node.textOf]⟩
  · intro name attrs others content
    rw [hhead, hhead]
    rfl

/-- Witness of C16 (as amended) at `<link href="h"/>` (no `text`) and at
`<link>http://example.com</link>` (the text). -/
theorem C16_link_text_witness :
    (readLink (.element "link" [⟨"href", "h"⟩] [])).text = none ∧
    (readLink (.element "link" [] [.data "http://example.com"])).text =
      some "http://example.com" :=
  ⟨(C16_link_text (.element "link" [⟨"href", "h"⟩] [])).2.2.1 rfl,
   ((C16_link_text (.element "link" [] [.data "http://example.com"])).2.2.2.1
      (.data "http://example.com") [] "http://example.com" rfl rfl).1⟩

/-- C16 as stated fails at `<link href="h"><b>x</b></link>`: the link element
has no text of its own (its only child is the element `b`), and yet the
object gets `text = "x"`, the value of `b`. -/
theorem C16_text_from_nested_element :
    (xml_node.element "link" [⟨"href", "h"⟩] [.element "b" [] [.data "x"]]).ownText = none ∧
    (xml_node.element "link" [⟨"href", "h"⟩] [.element "b" [] [.data "x"]]).children.filterMap
        xml_node.textOf = [] ∧
    (readLink (.element "link" [⟨"href", "h"⟩] [.element "b" [] [.data "x"]])).text =
      some "x" := by
  refine ⟨by decide, by decide, by decide⟩

end FastFeed
